import Mathlib

/-!
Verification of the readability-rs content-extraction engine.

A shallow embedding of the repository's core: the DOM helpers of
`src/html.rs` (re-exported by the crate's `dom` module), the text
renderer of `src/extractor.rs`, and the scoring and cleaning engine of
`src/scorer.rs`.  Rust `f32` scores are modelled exactly as rationals
(`ℚ`); `regex::Regex` values carried inside `ScorerOptions` are modelled
as their observable behaviour (`is_match : String → Bool`, and for the
punctuation regex the match count `String → Nat`); `url::Url::join` is
modelled as a function `String → Option String` (`none` = join error).
String primitives (`str::trim`, `str::to_lowercase`, `str::len`,
`str::starts_with`, `char` counting, and the lexicographic order on
`String` used by `BTreeMap<String, _>`) are modelled over the character
list of the Lean `String` so that every definition evaluates.
-/

namespace Readability

/-- Models Rust `char::to_lowercase` restricted to the ASCII letters that
occur in tag and attribute names (as `str::to_lowercase` acts on them). -/
def lowerChar (c : Char) : Char :=
  if 65 ≤ c.toNat ∧ c.toNat ≤ 90 then Char.ofNat (c.toNat + 32) else c

/-- Models Rust `str::to_lowercase`. -/
def lowerStr (s : String) : String := ⟨s.data.map lowerChar⟩

/-- Whitespace test used by the model of `str::trim` (Rust trims Unicode
whitespace; the common ASCII whitespace characters are modelled). -/
def wsChar (c : Char) : Bool := c = ' ' ∨ c = '\t' ∨ c = '\n' ∨ c = '\r'

/-- Models Rust `str::trim`. -/
def trimStr (s : String) : String :=
  ⟨((s.data.dropWhile wsChar).reverse.dropWhile wsChar).reverse⟩

/-- Number of bytes of the UTF-8 encoding of a character; used to model
Rust `str::len` (a byte count). -/
def charBytes (c : Char) : Nat :=
  if c.toNat < 128 then 1
  else if c.toNat < 2048 then 2
  else if c.toNat < 65536 then 3
  else 4

/-- Models Rust `str::len` (UTF-8 byte length). -/
def byteLen (s : String) : Nat := (s.data.map charBytes).sum

/-- Models Rust `str::starts_with` for a string pattern. -/
def startsWithStr (s pre : String) : Bool :=
  go s.data pre.data
where
  go : List Char → List Char → Bool
    | _, [] => true
    | [], _ :: _ => false
    | c :: cs, p :: ps => c = p ∧ go cs ps

/-- Models the lexicographic order on `String` that `BTreeMap<String, _>`
iterates by (byte order coincides with this character order for the
path strings the scorer builds). -/
def strLt (a b : String) : Bool :=
  go a.data b.data
where
  go : List Char → List Char → Bool
    | [], [] => false
    | [], _ :: _ => true
    | _ :: _, [] => false
    | x :: xs, y :: ys =>
      if x.toNat < y.toNat then true
      else if y.toNat < x.toNat then false
      else go xs ys

/-- The `markup5ever_rcdom::NodeData` variants (attribute order is kept;
an attribute is its local name paired with its value). -/
inductive NData where
  | document
  | doctype
  | element (name : String) (attrs : List (String × String))
  | text (contents : String)
  | comment
  | procInst

/-- A DOM node: `markup5ever_rcdom::Node` with its `data` and `children`. -/
inductive DNode where
  | mk (data : NData) (children : List DNode)

/-- The children list of a node. -/
def DNode.children : DNode → List DNode
  | .mk _ cs => cs

/-- The data variant of a node. -/
def DNode.data : DNode → NData
  | .mk d _ => d

/-- Models `html::attr` — first attribute with the given local name. -/
def attr (attrName : String) : List (String × String) → Option String
  | [] => none
  | a :: rest => if a.1 = attrName then some a.2 else attr attrName rest

/-- Models `html::set_attr` on an attribute list — replaces the value of
the first attribute matching the name, no-op when absent (the
`StrTendril::from_str` conversion in the source never fails). -/
def setAttrList (attrName value : String) : List (String × String) → List (String × String)
  | [] => []
  | a :: rest =>
    if a.1 = attrName then (a.1, value) :: rest
    else a :: setAttrList attrName value rest

/-- Models `html::clean_attr` — removes the first attribute matching the name. -/
def clean_attr (attrName : String) : List (String × String) → List (String × String)
  | [] => []
  | a :: rest => if a.1 = attrName then rest else a :: clean_attr attrName rest

/-- Models `html::get_tag_name` — lowercased tag for elements, `none` otherwise. -/
def get_tag_name (node : DNode) : Option String :=
  match node.data with
  | .element name _ => some (lowerStr name)
  | _ => none

/-- Models `html::get_attr` — attribute lookup on element nodes. -/
def get_attr (name : String) (node : DNode) : Option String :=
  match node.data with
  | .element _ attrs => attr name attrs
  | _ => none

/-- Models `html::set_attr` on a node. -/
def set_attr (name value : String) (node : DNode) : DNode :=
  match node with
  | .mk (.element n attrs) cs => .mk (.element n (setAttrList name value attrs)) cs
  | n => n

mutual

/-- Models `html::is_empty`: text children must be whitespace-only,
element children must be empty `li|dt|dd|p|div`, all other child kinds
are ignored, and the node's own tag must be `li|dt|dd|p|div|canvas`. -/
def is_empty (node : DNode) : Bool :=
  match node with
  | .mk data cs =>
    isEmptyChildren cs &&
      ((get_tag_name (.mk data cs)).getD "" ∈
        (["li", "dt", "dd", "p", "div", "canvas"] : List String))
termination_by structural node

/-- Child loop of `html::is_empty`. -/
def isEmptyChildren (l : List DNode) : Bool :=
  match l with
  | [] => true
  | c :: rest =>
    (match c with
     | .mk (.text s) _ => (trimStr s).data.length = 0
     | .mk (.element name _) _ =>
       lowerStr name ∈ (["li", "dt", "dd", "p", "div"] : List String) && is_empty c
     | _ => true) && isEmptyChildren rest
termination_by structural l

end

mutual

/-- Models `html::text_len` — total trimmed character count of the
descendant text nodes. -/
def text_len (node : DNode) : Nat :=
  match node with
  | .mk _ cs => textLenChildren cs
termination_by structural node

/-- Child loop of `html::text_len`. -/
def textLenChildren (l : List DNode) : Nat :=
  match l with
  | [] => 0
  | c :: rest =>
    (match c with
     | .mk (.text s) _ => (trimStr s).data.length
     | .mk (.element _ _) _ => text_len c
     | _ => 0) + textLenChildren rest
termination_by structural l

end

mutual

/-- Models `html::find_node` — descendant elements with the given
(lowercased) tag, in DFS pre-order; recursion descends only into
element children, as in the source. -/
def find_node (tagName : String) (node : DNode) : List DNode :=
  match node with
  | .mk _ cs => findNodeChildren tagName cs
termination_by structural node

/-- Child loop of `html::find_node`. -/
def findNodeChildren (tagName : String) (l : List DNode) : List DNode :=
  match l with
  | [] => []
  | c :: rest =>
    (match c with
     | .mk (.element name _) _ =>
       (if lowerStr name = tagName then [c] else []) ++ find_node tagName c
     | _ => []) ++ findNodeChildren tagName rest
termination_by structural l

end

mutual

/-- Models `html::has_nodes` — whether some descendant's tag is in the list. -/
def has_nodes (node : DNode) (tagNames : List String) : Bool :=
  match node with
  | .mk _ cs => hasNodesChildren cs tagNames
termination_by structural node

/-- Child loop of `html::has_nodes`. -/
def hasNodesChildren (l : List DNode) (tagNames : List String) : Bool :=
  match l with
  | [] => false
  | c :: rest =>
    tagNames.contains ((get_tag_name c).getD "") ||
      (match c with
       | .mk (.element _ _) _ => has_nodes c tagNames
       | _ => false) ||
      hasNodesChildren rest tagNames
termination_by structural l

end

/-- Models `html::text_children_count` — direct text children whose
trimmed byte length is at least 20. -/
def text_children_count (node : DNode) : Nat :=
  go node.children
where
  go : List DNode → Nat
    | [] => 0
    | c :: rest =>
      (match c.data with
       | .text s => if 20 ≤ byteLen (trimStr s) then 1 else 0
       | _ => 0) + go rest

mutual

/-- Models `extractor::extract_text` with `deep = true` (the only way the
scorer calls it): appends descendant text to the accumulator, inserting
a newline before an element whose previous element sibling was a `p`. -/
def extract_text (node : DNode) (text : String) : String :=
  match node with
  | .mk _ cs => (extractTextChildren cs text none).1
termination_by structural node

/-- Child loop of `extractor::extract_text`; carries the text accumulator
and the last element tag seen. -/
def extractTextChildren (l : List DNode) (text : String) (last : Option String) :
    String × Option String :=
  match l with
  | [] => (text, last)
  | c :: rest =>
    match c with
    | .mk (.text s) _ => extractTextChildren rest (text ++ s) last
    | .mk (.element _ _) _ =>
      let text₁ := if last = some "p" then text ++ "\n" else text
      let text₂ := extract_text c text₁
      extractTextChildren rest text₂ (get_tag_name c)
    | _ => extractTextChildren rest text last
termination_by structural l

end


/-- Models `scorer::CandidateScore` — distribution of the content score
among parent nodes. -/
inductive CandidateScore where
  | equalWeight
  | levelWeight

/-- Models `scorer::ScorerOptions`; each regex is modelled by its
observable behaviour (`is_match`, and the match count for
`punctuations`). -/
structure ScorerOptions where
  min_candidate_length : Nat
  max_candidate_parents : Nat
  candidate_score : CandidateScore
  punctuations : String → Nat
  unlikely_candidates : String → Bool
  likely_candidates : String → Bool
  positive_candidates : String → Bool
  positive_candidate_weight : ℚ
  negative_candidates : String → Bool
  negative_candidate_weight : ℚ
  block_child_tags : List String

/-- Models `scorer::Candidate` (the `Cell<f32>` score as an exact `ℚ`). -/
structure Candidate where
  node : DNode
  score : ℚ

/-- Path keys of the traversal: `Path::new("/")` is `[]` and
`node_id.join(i.to_string())` appends `i`; `Path::parent` is
`List.dropLast` (with no parent at the root). -/
abbrev PathKey := List Nat

/-- Renders a path key as the `std::path::Path` string the source uses
("/", "/0", "/0/3", …); `BTreeMap<String, _>` orders its keys by this
string. -/
def pathStr (k : PathKey) : String :=
  (k.map fun i => "/" ++ Nat.repr i).foldl (fun a b => a ++ b) "" ++
    (if k = ([] : List Nat) then "/" else "")

/-- Association list standing for a `BTreeMap` keyed by path strings. -/
abbrev AMap (α : Type) := List (PathKey × α)

/-- Models `BTreeMap::get`. -/
def lookupA {α : Type} : AMap α → PathKey → Option α
  | [], _ => none
  | e :: rest, k => if e.1 = k then some e.2 else lookupA rest k

/-- Models `BTreeMap::insert`, keeping entries in ascending key-string
order so that list order is the map's iteration order. -/
def binsert {α : Type} (k : PathKey) (v : α) : AMap α → AMap α
  | [] => [(k, v)]
  | e :: rest =>
    if e.1 = k then (k, v) :: rest
    else if strLt (pathStr k) (pathStr e.1) then (k, v) :: e :: rest
    else e :: binsert k v rest

/-- Models the `Cell::set` on the score of the candidate stored at a key. -/
def setScore (k : PathKey) (q : ℚ) : AMap Candidate → AMap Candidate
  | [] => []
  | e :: rest =>
    if e.1 = k then (k, ⟨e.2.node, q⟩) :: setScore k q rest
    else e :: setScore k q rest

/-- One `id`/`class` contribution inside `Scorer::get_class_weight`. -/
def classWeightContrib (opts : ScorerOptions) (attrs : List (String × String))
    (name : String) : ℚ :=
  match attr name attrs with
  | some v =>
    (if opts.positive_candidates v then opts.positive_candidate_weight else 0) -
      (if opts.negative_candidates v then opts.negative_candidate_weight else 0)
  | none => 0

/-- Models `Scorer::get_class_weight`. -/
def get_class_weight (opts : ScorerOptions) (node : DNode) : ℚ :=
  match node.data with
  | .element _ attrs =>
    classWeightContrib opts attrs "id" + classWeightContrib opts attrs "class"
  | _ => 0

/-- Models `Scorer::init_content_score`. -/
def init_content_score (opts : ScorerOptions) (node : DNode) : ℚ :=
  (match (get_tag_name node).getD "" with
   | "article" => 10
   | "div" => 5
   | "pre" | "td" | "blockquote" => 3
   | "address" | "ol" | "ul" | "dl" | "dd" | "dt" | "li" | "form" => -3
   | "h1" | "h2" | "h3" | "h4" | "h5" | "h6" | "th" => -5
   | _ => 0) + get_class_weight opts node

/-- Models `Scorer::calculate_content_score` (`f32::floor` of the exact
char count divided by 100 is the `Nat` floor division). -/
def calculate_content_score (opts : ScorerOptions) (node : DNode) : ℚ :=
  let text := extract_text node ""
  1 + (opts.punctuations text : ℚ) + ((min (text.data.length / 100) 3 : ℕ) : ℚ)

/-- Models `Scorer::is_candidate`. -/
def is_candidate (opts : ScorerOptions) (node : DNode) : Bool :=
  if text_len node < opts.min_candidate_length then false
  else
    match (get_tag_name node).getD "" with
    | "p" => true
    | "div" | "article" | "center" | "section" =>
      !(has_nodes node opts.block_child_tags)
    | _ => false

/-- Models `scorer::get_link_density`. -/
def get_link_density (node : DNode) : ℚ :=
  let textLength : ℚ := (text_len node : ℕ)
  if textLength = 0 then 0
  else (((find_node "a" node).map text_len).sum : ℕ) / textLength

/-- Models `Scorer::is_useless` (the `0.2` literal is the exact `1/5`;
the `f32::floor(para_count / 3.0)` comparison is the `Nat` floor
division). -/
def is_useless (opts : ScorerOptions) (id : PathKey) (node : DNode)
    (candidates : AMap Candidate) : Bool :=
  let tag_name := (get_tag_name node).getD ""
  let weight := get_class_weight opts node
  let score := ((lookupA candidates id).map Candidate.score).getD 0
  if weight + score < 0 then true
  else
    let text_nodes_len := text_children_count node
    let p_count := (find_node "p" node).length
    let img_count := (find_node "img" node).length
    let li_count : ℤ := ((find_node "li" node).length : ℤ) - 100
    let input_count := (find_node "input" node).length
    let embed_count := (find_node "embed" node).length
    let link_density := get_link_density node
    let content_length := text_len node
    let para_count := text_nodes_len + p_count
    if para_count + text_nodes_len < img_count then true
    else if (para_count : ℤ) < li_count ∧ tag_name ≠ "ul" ∧ tag_name ≠ "ol" then true
    else if para_count / 3 < input_count then true
    else if content_length < 25 ∧ (img_count = 0 ∨ 2 < img_count) then true
    else if weight < 25 ∧ (1 : ℚ) / 5 < link_density then true
    else if (embed_count = 1 ∧ content_length < 35) ∨ 1 < embed_count then true
    else false

/-- The `adjusted_content_score` computed inside the propagation loop of
`Scorer::find_candidates`. -/
def adjusted_content_score (cs : CandidateScore) (contentScore : ℚ) (level : ℕ) : ℚ :=
  match cs with
  | .equalWeight => contentScore
  | .levelWeight => contentScore / (level : ℚ)

/-- Models `Scorer::find_or_create_candidate`: resolves the id in the
node map, creating a candidate record with the initial content score
when none exists; returns the (possibly extended) candidate map and the
record. -/
def find_or_create_candidate (opts : ScorerOptions) (id : PathKey)
    (candidates : AMap Candidate) (nodes : AMap DNode) :
    AMap Candidate × Option Candidate :=
  match lookupA nodes id with
  | some node =>
    match lookupA candidates id with
    | some c => (candidates, some c)
    | none =>
      let c : Candidate := ⟨node, init_content_score opts node⟩
      (binsert id c candidates, some c)
  | none => (candidates, none)

/-- The ancestor-walk loop of `Scorer::find_candidates` (`while let
Some(current_id) = current_node_id`): `level` starts at 1 at the
candidate node itself (which is skipped by the `current_id != node_id`
guard); the walk breaks past `max_candidate_parents` levels, at a
resolved `body` candidate, and at the root, whose `Path::parent` is
`None`. -/
def propagate (opts : ScorerOptions) (contentScore : ℚ) (nodeId : PathKey)
    (nodes : AMap DNode) (cur : PathKey) (level : Nat)
    (candidates : AMap Candidate) : AMap Candidate :=
  if opts.max_candidate_parents < level then candidates
  else
    let step : AMap Candidate × Bool :=
      if cur ≠ nodeId then
        match find_or_create_candidate opts cur candidates nodes with
        | (cands₁, some c) =>
          (setScore cur
             (c.score + adjusted_content_score opts.candidate_score contentScore level)
             cands₁,
           get_tag_name c.node = some "body")
        | (cands₁, none) => (cands₁, false)
      else (candidates, false)
    if step.2 then step.1
    else
      match cur with
      | [] => step.1
      | a :: l => propagate opts contentScore nodeId nodes (a :: l).dropLast (level + 1) step.1
termination_by cur.length
decreasing_by simp [List.length_dropLast]

/-- The candidate and node maps populated by `Scorer::find_candidates`. -/
structure FCState where
  candidates : AMap Candidate
  nodes : AMap DNode

mutual

/-- Models `Scorer::find_candidates`: inserts the node into the node map,
propagates the content score of candidate nodes up the ancestor chain,
and recurses into the children with extended path keys
(`children.iter().enumerate()`). Next to the maps it returns the subtree
it walked, rebuilt from the recursion, so that any mutation of children
would be visible in the result (`Scorer::find_candidates` itself returns
`()` and leaves its `handle` in place). -/
def findCandidatesT (opts : ScorerOptions) (nodeId : PathKey) (node : DNode)
    (st : FCState) : DNode × FCState :=
  match node with
  | .mk data cs =>
    let st₁ : FCState := ⟨st.candidates, binsert nodeId (.mk data cs) st.nodes⟩
    let st₂ : FCState :=
      if is_candidate opts (.mk data cs) then
        ⟨propagate opts (calculate_content_score opts (.mk data cs)) nodeId st₁.nodes
           nodeId 1 st₁.candidates,
         st₁.nodes⟩
      else st₁
    let r := findCandidatesTChildren opts nodeId 0 cs st₂
    (.mk data r.1, r.2)
termination_by structural node

/-- Child loop of `Scorer::find_candidates`. -/
def findCandidatesTChildren (opts : ScorerOptions) (nodeId : PathKey) (i : Nat)
    (l : List DNode) (st : FCState) : List DNode × FCState :=
  match l with
  | [] => ([], st)
  | c :: rest =>
    let r := findCandidatesT opts (nodeId ++ [i]) c st
    let tail := findCandidatesTChildren opts nodeId (i + 1) rest r.2
    (r.1 :: tail.1, tail.2)
termination_by structural l

end

/-- The map part of `Scorer::find_candidates`. -/
def find_candidates (opts : ScorerOptions) (nodeId : PathKey) (node : DNode)
    (st : FCState) : FCState :=
  (findCandidatesT opts nodeId node st).2

/-- The map part of the child loop of `Scorer::find_candidates`. -/
def findCandidatesChildren (opts : ScorerOptions) (nodeId : PathKey) (i : Nat)
    (l : List DNode) (st : FCState) : FCState :=
  (findCandidatesTChildren opts nodeId i l st).2

/-- Loop of `Scorer::find_top_candidate`: walks the candidate entries in
iteration order, stores each score multiplied by `1 - link density` back
into the map, and keeps the first entry whose adjusted score strictly
exceeds the current top's. Returns the updated entries and the top. -/
def findTopLoop : List (PathKey × Candidate) → Option (PathKey × Candidate) →
    List (PathKey × Candidate) × Option (PathKey × Candidate)
  | [], top => ([], top)
  | (id, c) :: rest, top =>
    let score := c.score * (1 - get_link_density c.node)
    let c' : Candidate := ⟨c.node, score⟩
    let top' : Option (PathKey × Candidate) :=
      match top with
      | none => some (id, c')
      | some t => if t.2.score < score then some (id, c') else top
    let r := findTopLoop rest top'
    ((id, c') :: r.1, r.2)

/-- Models `Scorer::find_top_candidate` (the map is its entry list in
iteration order; the returned pair is the adjusted map and the top
candidate with its id, `none` on an empty map). -/
def find_top_candidate (candidates : AMap Candidate) :
    AMap Candidate × Option (PathKey × Candidate) :=
  findTopLoop candidates none

/-- Models `scorer::fix_img_path`; `join` models `Url::join` on the page
URL, with `none` for `Err`. Returns the possibly rewritten node, and
`false` exactly when the `src` attribute is absent. -/
def fix_img_path (join : String → Option String) (node : DNode) : DNode × Bool :=
  match get_attr "src" node with
  | none => (node, false)
  | some s =>
    if !(startsWithStr s "//") && !(startsWithStr s "http://") &&
        !(startsWithStr s "https://") then
      match join s with
      | some newUrl => (set_attr "src" newUrl node, true)
      | none => (node, true)
    else (node, true)

/-- Models `scorer::fix_anchor_path` (as `fix_img_path`, on `href`). -/
def fix_anchor_path (join : String → Option String) (node : DNode) : DNode × Bool :=
  match get_attr "href" node with
  | none => (node, false)
  | some s =>
    if !(startsWithStr s "//") && !(startsWithStr s "http://") &&
        !(startsWithStr s "https://") then
      match join s with
      | some newUrl => (set_attr "href" newUrl node, true)
      | none => (node, true)
    else (node, true)

/-- Attribute scrub performed on every element by `Scorer::clean`
(`clean_attr` for `id`, then `class`, then `style`). -/
def scrubAttrs (attrs : List (String × String)) : List (String × String) :=
  clean_attr "style" (clean_attr "class" (clean_attr "id" attrs))

/-- The tag dispatch of `Scorer::clean` on an element (the `match` on
the lowercased tag name): unconditional removals, the `is_useless`
check for `form|table|ul|div`, and the `src`/`href` rewrites whose
failure (a missing attribute) marks the node removable. -/
def cleanTagStep (opts : ScorerOptions) (join : String → Option String)
    (candidates : AMap Candidate) (id : PathKey) (tagName : String)
    (node : DNode) : DNode × Bool :=
  if tagName ∈ (["script", "link", "style", "noscript", "meta", "h1",
      "object", "header", "footer", "aside"] : List String) then
    (node, true)
  else if tagName ∈ (["form", "table", "ul", "div"] : List String) then
    (node, is_useless opts id node candidates)
  else if tagName = "img" then
    let r := fix_img_path join node
    (r.1, !r.2)
  else if tagName = "a" then
    let r := fix_anchor_path join node
    (r.1, !r.2)
  else (node, false)

mutual

/-- Models `Scorer::clean`: computes the per-node data rewrite and
removable verdict, recursively cleans the children dropping the
removable ones, and finally marks the node removable when `is_empty`
holds for the cleaned node. A `ProcessingInstruction` is `unreachable!()`
in the source; the model keeps such a node. -/
def clean (opts : ScorerOptions) (join : String → Option String)
    (candidates : AMap Candidate) (id : PathKey) (node : DNode) : DNode × Bool :=
  match node with
  | .mk data cs =>
    let step : NData × Bool :=
      match data with
      | .document => (data, false)
      | .doctype => (data, false)
      | .text s => (data, (trimStr s).data.length = 0)
      | .comment => (data, true)
      | .element name _attrs =>
        let fr := cleanTagStep opts join candidates id (lowerStr name) (.mk data cs)
        (match fr.1 with
         | .mk (.element nm a) _ => NData.element nm (scrubAttrs a)
         | .mk d _ => d,
         fr.2)
      | .procInst => (data, false)
    let cs' := cleanChildren opts join candidates id 0 cs
    let node' : DNode := .mk step.1 cs'
    (node', step.2 || is_empty node')
termination_by structural node

/-- Child loop of `Scorer::clean`: cleans each child at its extended path
and drops the removable ones (the source stages them in `useless_nodes`
and removes them after the iteration). -/
def cleanChildren (opts : ScorerOptions) (join : String → Option String)
    (candidates : AMap Candidate) (id : PathKey) (i : Nat) (l : List DNode) :
    List DNode :=
  match l with
  | [] => []
  | c :: rest =>
    let r := clean opts join candidates (id ++ [i]) c
    let tail := cleanChildren opts join candidates id (i + 1) rest
    if r.2 then tail else r.1 :: tail
termination_by structural l

end

/-- The `id`/`class` unlikely-candidate check of `Scorer::preprocess`
(the comparison with "body" is on the original-case tag name, as in the
source). -/
def preprocessUnlikely (opts : ScorerOptions) (name : String)
    (attrs : List (String × String)) : Bool :=
  (["id", "class"] : List String).any fun a =>
    match attr a attrs with
    | some v => name ≠ "body" && opts.unlikely_candidates v && !(opts.likely_candidates v)
    | none => false

mutual

/-- Models `Scorer::preprocess`: strips `script`/`link`/`style` and
unlikely-candidate elements (reporting them removable to the parent),
extracts the `title` text, and wraps text following two or more
consecutive `br` elements into a fresh `p` element. Returns the
rewritten node, the title accumulator, and the removable flag. -/
def preprocess (opts : ScorerOptions) (node : DNode) (title : String) :
    DNode × String × Bool :=
  match node with
  | .mk data cs =>
    match data with
    | .element name attrs =>
      let tagName := lowerStr name
      if tagName = "script" ∨ tagName = "link" ∨ tagName = "style" then
        (.mk data cs, title, true)
      else
        let title₁ :=
          if tagName = "title" then extract_text (.mk data cs) title else title
        if preprocessUnlikely opts name attrs then (.mk data cs, title₁, true)
        else
          let r := preprocessChildren opts cs title₁ 0
          (.mk data r.1, r.2, false)
    | _ =>
      let r := preprocessChildren opts cs title 0
      (.mk data r.1, r.2, false)
termination_by structural node

/-- Child loop of `Scorer::preprocess`: recurses into each child,
threads the title buffer, counts consecutive `br` elements, drops the
children reported removable, and wraps qualifying text nodes into `p`
elements (the source stages removals and wraps and applies them after
the iteration; removable children are never wrap targets). -/
def preprocessChildren (opts : ScorerOptions) (l : List DNode) (title : String)
    (brCount : Nat) : List DNode × String :=
  match l with
  | [] => ([], title)
  | c :: rest =>
    let r := preprocess opts c title
    match c with
    | .mk (.element name _) _ =>
      let brCount₁ := if lowerStr name = "br" then brCount + 1 else 0
      let tail := preprocessChildren opts rest r.2.1 brCount₁
      (if r.2.2 then tail.1 else r.1 :: tail.1, tail.2)
    | .mk (.text s) _ =>
      if 2 ≤ brCount ∧ (trimStr s).data.length ≠ 0 then
        let tail := preprocessChildren opts rest r.2.1 0
        ((DNode.mk (.element "p" []) [.mk (.text s) []]) :: tail.1, tail.2)
      else
        let tail := preprocessChildren opts rest r.2.1 brCount
        (r.1 :: tail.1, tail.2)
    | _ =>
      let tail := preprocessChildren opts rest r.2.1 brCount
      (if r.2.2 then tail.1 else r.1 :: tail.1, tail.2)
termination_by structural l

end

/-- The top-candidate selection of `extractor::extract_content`: the
result of `find_top_candidate`, or — `unwrap_or_else` — the fallback
`TopCandidate::new("/", Candidate at the document root with score 0)`
when the candidate map was empty. -/
def extractSel (top : Option (PathKey × Candidate)) (root : DNode) :
    PathKey × Candidate :=
  match top with
  | some t => t
  | none => ([], ⟨root, 0⟩)

/-- Models `extractor::extract_content` (parsing and serialisation live
outside the core): preprocess from the document root, find candidates
from path "/" (= `[]`), pick the top candidate — falling back to the
document root with score 0 — clean the chosen subtree against the
adjusted candidate map, and return the chosen node with the title. The
removable verdict `Scorer::clean` reports for the chosen node is
discarded. -/
def extract_content (opts : ScorerOptions) (join : String → Option String)
    (dom : DNode) : DNode × String :=
  let p := preprocess opts dom ""
  let st := find_candidates opts [] p.1 ⟨[], []⟩
  let ftc := find_top_candidate st.candidates
  let sel := extractSel ftc.2 p.1
  ((clean opts join ftc.1 sel.1 sel.2.node).1, p.2.1)


/-! Helper lemmas about the association-list maps. -/

theorem lookupA_binsert {α : Type} (m : AMap α) (k k' : PathKey) (v : α) :
    lookupA (binsert k v m) k' = if k' = k then some v else lookupA m k' := by
  induction m with
  | nil =>
    by_cases h : k' = k
    · subst h; simp [binsert, lookupA]
    · have h' : ¬ k = k' := fun e => h e.symm
      simp [binsert, lookupA, h, h']
  | cons e rest ih =>
    by_cases h2 : k' = k
    · subst h2
      by_cases h1 : e.1 = k'
      · simp [binsert, h1, lookupA]
      · by_cases h3 : strLt (pathStr k') (pathStr e.1)
        · simp [binsert, h1, h3, lookupA]
        · simp [binsert, h1, h3, lookupA, ih]
    · have h2' : ¬ k = k' := fun e => h2 e.symm
      by_cases h1 : e.1 = k
      · have h4 : ¬ e.1 = k' := by rw [h1]; exact h2'
        simp [binsert, h1, lookupA, h2, h2', h4]
      · by_cases h3 : strLt (pathStr k) (pathStr e.1)
        · simp [binsert, h1, h3, lookupA, h2, h2']
        · simp [binsert, h1, h3, lookupA, h2, ih]

theorem lookupA_setScore (m : AMap Candidate) (k k' : PathKey) (q : ℚ) :
    lookupA (setScore k q m) k' =
      if k' = k then (lookupA m k).map (fun c => ⟨c.node, q⟩) else lookupA m k' := by
  induction m with
  | nil => simp [setScore, lookupA]
  | cons e rest ih =>
    by_cases h2 : k' = k
    · subst h2
      by_cases h1 : e.1 = k'
      · simp [setScore, h1, lookupA, ih]
      · simp [setScore, h1, lookupA, ih]
    · have h2' : ¬ k = k' := fun e => h2 e.symm
      by_cases h1 : e.1 = k
      · have h4 : ¬ e.1 = k' := by rw [h1]; exact h2'
        simp [setScore, h1, lookupA, h2, h2', h4, ih]
      · by_cases h4 : e.1 = k'
        · simp [setScore, h1, lookupA, h2, h4]
        · simp [setScore, h1, lookupA, h2, h4, ih]

/-- The iterated `Path::parent`: the `d`-th ancestor path of a key. -/
def ancestor (d : Nat) (k : PathKey) : PathKey :=
  List.dropLast^[d] k

theorem ancestor_zero (k : PathKey) : ancestor 0 k = k := rfl

theorem ancestor_succ (d : Nat) (k : PathKey) :
    ancestor (d + 1) k = ancestor d k.dropLast := by
  simp [ancestor, Function.iterate_succ_apply]

theorem ancestor_length (d : Nat) (k : PathKey) :
    (ancestor d k).length = k.length - d := by
  induction d generalizing k with
  | zero => simp [ancestor]
  | succ n ih =>
    rw [ancestor_succ, ih, List.length_dropLast]
    omega

theorem ancestor_ne_of_length_lt {d : Nat} {k k' : PathKey}
    (h : (ancestor d k).length < k'.length) : ancestor d k ≠ k' := by
  intro he; rw [he] at h; omega


theorem foc_fst_lookup (opts : ScorerOptions) (id : PathKey) (cands : AMap Candidate)
    (nodes : AMap DNode) (k : PathKey) (h : k ≠ id) :
    lookupA (find_or_create_candidate opts id cands nodes).1 k = lookupA cands k := by
  unfold find_or_create_candidate
  cases lookupA nodes id with
  | none => rfl
  | some node =>
    cases lookupA cands id with
    | none => simp [lookupA_binsert, h]
    | some c => rfl

theorem foc_lookup_self (opts : ScorerOptions) (id : PathKey) (cands : AMap Candidate)
    (nodes : AMap DNode) (c : Candidate)
    (h : (find_or_create_candidate opts id cands nodes).2 = some c) :
    lookupA (find_or_create_candidate opts id cands nodes).1 id = some c := by
  unfold find_or_create_candidate at h ⊢
  cases hn : lookupA nodes id with
  | none => rw [hn] at h; exact absurd h (by simp)
  | some node =>
    rw [hn] at h
    cases hc : lookupA cands id with
    | none => rw [hc] at h; simpa [lookupA_binsert] using h
    | some c₀ => rw [hc] at h; simpa [hc] using h

theorem foc_snd_congr (opts : ScorerOptions) (id : PathKey) (cands cands' : AMap Candidate)
    (nodes : AMap DNode) (h : lookupA cands' id = lookupA cands id) :
    (find_or_create_candidate opts id cands' nodes).2 =
      (find_or_create_candidate opts id cands nodes).2 := by
  unfold find_or_create_candidate
  rw [h]
  cases lookupA nodes id with
  | none => rfl
  | some node => cases lookupA cands id with
    | none => rfl
    | some c => rfl

/-- Frame property of the propagation loop: keys that are not among the
ancestors visited within the level budget are untouched. -/
theorem propagate_untouched (opts : ScorerOptions) (S : ℚ) (nodeId : PathKey)
    (nodes : AMap DNode) (cur : PathKey) (level : Nat) (cands : AMap Candidate)
    (k : PathKey)
    (hk : ∀ j : Nat, level + j ≤ opts.max_candidate_parents → k ≠ ancestor j cur) :
    lookupA (propagate opts S nodeId nodes cur level cands) k = lookupA cands k := by
  rw [propagate]
  by_cases hlev : opts.max_candidate_parents < level
  · simp [hlev]
  · have hk0 : k ≠ cur := by
      have := hk 0 (by omega)
      simpa [ancestor] using this
    simp only [if_neg hlev]
    cases cur with
    | nil =>
      by_cases hn : ([] : PathKey) = nodeId
      · simp [hn]
      · rcases hfo : find_or_create_candidate opts [] cands nodes with ⟨cands₁, copt⟩
        have hlook : lookupA cands₁ k = lookupA cands k := by
          have h := foc_fst_lookup opts [] cands nodes k hk0
          rw [hfo] at h; exact h
        cases copt with
        | none => simp [hn, hfo, hlook]
        | some c =>
          simp only [hn, hfo, ne_eq, not_false_iff, if_pos, ite_not]
          split_ifs <;> simp [lookupA_setScore, hk0, hlook]
    | cons a l =>
      have hk' : ∀ j : Nat, (level + 1) + j ≤ opts.max_candidate_parents →
          k ≠ ancestor j ((a :: l).dropLast) := by
        intro j hj
        have := hk (j + 1) (by omega)
        rwa [ancestor_succ] at this
      by_cases hn : (a :: l) = nodeId
      · have hcond : ¬ ((a :: l) ≠ nodeId) := fun hne => hne hn
        rw [if_neg hcond]
        simpa using propagate_untouched opts S nodeId nodes ((a :: l).dropLast)
          (level + 1) cands k hk'
      · rcases hfo : find_or_create_candidate opts (a :: l) cands nodes with ⟨cands₁, copt⟩
        have hlook : lookupA cands₁ k = lookupA cands k := by
          have h := foc_fst_lookup opts (a :: l) cands nodes k hk0
          rw [hfo] at h; exact h
        cases copt with
        | none =>
          simp only [hn, hfo, ne_eq, not_false_iff, if_pos, Bool.false_eq_true, if_false]
          rw [propagate_untouched opts S nodeId nodes _ (level + 1) cands₁ k hk', hlook]
        | some c =>
          simp only [hn, hfo, ne_eq, not_false_iff, if_pos]
          split_ifs with hb
          · rw [lookupA_setScore]; simp [hk0, hlook]
          · rw [propagate_untouched opts S nodeId nodes _ (level + 1) _ k hk',
              lookupA_setScore]
            simp [hk0, hlook]
termination_by cur.length
decreasing_by all_goals (simp_wf; subst_vars; try simp [List.length_dropLast]; try omega)


/-- When the propagation loop of `find_candidates` reaches the ancestor at
distance `d` from `cur` (entered at loop level `level`), the candidate
record resolved there receives exactly one score share, computed at loop
level `level + d`. -/
theorem propagate_visit (opts : ScorerOptions) (S : ℚ) (nodeId : PathKey)
    (nodes : AMap DNode) (d : Nat) (cur : PathKey) (level : Nat)
    (cands : AMap Candidate) (cT : Candidate)
    (hd : d ≤ cur.length)
    (hcur : cur.length ≤ nodeId.length)
    (hne : cur = nodeId → 0 < d)
    (hmax : level + d ≤ opts.max_candidate_parents)
    (hres : (find_or_create_candidate opts (ancestor d cur) cands nodes).2 = some cT)
    (hbody : ∀ j, j < d → ancestor j cur ≠ nodeId →
      ∀ c, (find_or_create_candidate opts (ancestor j cur) cands nodes).2 = some c →
        get_tag_name c.node ≠ some "body") :
    ∃ c', lookupA (propagate opts S nodeId nodes cur level cands) (ancestor d cur) = some c' ∧
      c'.node = cT.node ∧
      c'.score = cT.score + adjusted_content_score opts.candidate_score S (level + d) := by
  match d with
  | 0 =>
    have hne0 : cur ≠ nodeId := fun h => absurd (hne h) (by omega)
    rw [ancestor_zero] at hres ⊢
    have hlev : ¬ opts.max_candidate_parents < level := by omega
    rw [propagate, if_neg hlev, if_pos hne0]
    rcases hfo : find_or_create_candidate opts cur cands nodes with ⟨cands₁, copt⟩
    have hcopt : copt = some cT := by rw [hfo] at hres; exact hres
    subst hcopt
    have hself : lookupA cands₁ cur = some cT := by
      have h := foc_lookup_self opts cur cands nodes cT hres
      rw [hfo] at h; exact h
    have hstep : lookupA (setScore cur
        (cT.score + adjusted_content_score opts.candidate_score S level) cands₁) cur =
        some ⟨cT.node, cT.score + adjusted_content_score opts.candidate_score S level⟩ := by
      rw [lookupA_setScore]; simp [hself]
    by_cases hb : get_tag_name cT.node = some "body"
    · simp only [decide_eq_true_eq, if_pos hb]
      exact ⟨_, hstep, rfl, by simp⟩
    · simp only [decide_eq_true_eq, if_neg hb]
      cases cur with
      | nil => exact ⟨_, hstep, rfl, by simp⟩
      | cons a l =>
        have hfar : ∀ j : Nat, (level + 1) + j ≤ opts.max_candidate_parents →
            (a :: l) ≠ ancestor j ((a :: l).dropLast) := by
          intro j hj
          refine (ancestor_ne_of_length_lt ?_).symm
          rw [ancestor_length]
          simp only [List.length_dropLast, List.length_cons]
          omega
        rw [propagate_untouched opts S nodeId nodes ((a :: l).dropLast) (level + 1) _
          (a :: l) hfar]
        exact ⟨_, hstep, rfl, by simp⟩
  | e + 1 =>
    cases cur with
    | nil => exact absurd hd (by simp)
    | cons a l =>
      have hlev : ¬ opts.max_candidate_parents < level := by omega
      have htarget : ancestor (e + 1) (a :: l) = ancestor e ((a :: l).dropLast) :=
        ancestor_succ e _
      have hlen_cons : (a :: l).length = l.length + 1 := by simp
      have hlen_dl : ((a :: l).dropLast).length = l.length := by
        simp [List.length_dropLast]
      have hd' : e ≤ ((a :: l).dropLast).length := by
        rw [hlen_dl]; rw [hlen_cons] at hd; omega
      have hcur' : ((a :: l).dropLast).length ≤ nodeId.length := by
        rw [hlen_dl]; rw [hlen_cons] at hcur; omega
      have hne' : (a :: l).dropLast = nodeId → 0 < e := by
        intro h
        exfalso
        have h1 : ((a :: l).dropLast).length = nodeId.length := by rw [h]
        rw [hlen_dl] at h1
        rw [hlen_cons] at hcur
        omega
      have hmax' : (level + 1) + e ≤ opts.max_candidate_parents := by omega
      have harith : (level + 1) + e = level + (e + 1) := by omega
      rw [propagate, if_neg hlev]
      by_cases hn : (a :: l) = nodeId
      · have hcond : ¬ ((a :: l) ≠ nodeId) := fun hx => hx hn
        rw [if_neg hcond]
        have hres' : (find_or_create_candidate opts (ancestor e ((a :: l).dropLast))
            cands nodes).2 = some cT := by rw [← htarget]; exact hres
        have hbody' : ∀ j, j < e → ancestor j ((a :: l).dropLast) ≠ nodeId →
            ∀ c, (find_or_create_candidate opts (ancestor j ((a :: l).dropLast))
              cands nodes).2 = some c → get_tag_name c.node ≠ some "body" := by
          intro j hj hnej c hc
          exact hbody (j + 1) (by omega) (by rwa [ancestor_succ]) c
            (by rwa [ancestor_succ])
        have hrec := propagate_visit opts S nodeId nodes e ((a :: l).dropLast)
          (level + 1) cands cT hd' hcur' hne' hmax' hres' hbody'
        rw [harith, ← htarget] at hrec
        simpa using hrec
      · have hne_t_cur : ancestor (e + 1) (a :: l) ≠ (a :: l) := by
          apply ancestor_ne_of_length_lt
          rw [ancestor_length, hlen_cons]
          omega
        rcases hfo : find_or_create_candidate opts (a :: l) cands nodes with ⟨cands₁, copt⟩
        have hlookT : lookupA cands₁ (ancestor (e + 1) (a :: l)) =
            lookupA cands (ancestor (e + 1) (a :: l)) := by
          have h := foc_fst_lookup opts (a :: l) cands nodes _ hne_t_cur
          rw [hfo] at h; exact h
        rw [if_pos hn]
        cases copt with
        | none =>
          have hres' : (find_or_create_candidate opts (ancestor e ((a :: l).dropLast))
              cands₁ nodes).2 = some cT := by
            rw [foc_snd_congr opts _ cands cands₁ nodes (by rw [← htarget]; exact hlookT),
              ← htarget]
            exact hres
          have hbody' : ∀ j, j < e → ancestor j ((a :: l).dropLast) ≠ nodeId →
              ∀ c, (find_or_create_candidate opts (ancestor j ((a :: l).dropLast))
                cands₁ nodes).2 = some c → get_tag_name c.node ≠ some "body" := by
            intro j hj hnej c hc
            have hkne : ancestor (j + 1) (a :: l) ≠ (a :: l) := by
              apply ancestor_ne_of_length_lt
              rw [ancestor_length, hlen_cons]
              omega
            have hl : lookupA cands₁ (ancestor (j + 1) (a :: l)) =
                lookupA cands (ancestor (j + 1) (a :: l)) := by
              have h := foc_fst_lookup opts (a :: l) cands nodes _ hkne
              rw [hfo] at h; exact h
            rw [ancestor_succ] at hl
            rw [foc_snd_congr opts _ cands cands₁ nodes hl] at hc
            exact hbody (j + 1) (by omega) (by rwa [ancestor_succ]) c
              (by rwa [ancestor_succ])
          have hrec := propagate_visit opts S nodeId nodes e ((a :: l).dropLast)
            (level + 1) cands₁ cT hd' hcur' hne' hmax' hres' hbody'
          rw [harith, ← htarget] at hrec
          simpa using hrec
        | some c =>
          have hbnot : get_tag_name c.node ≠ some "body" := by
            refine hbody 0 (by omega) (by rw [ancestor_zero]; exact hn) c ?_
            rw [ancestor_zero, hfo]
          have hsetkeep : ∀ key, key ≠ (a :: l) →
              lookupA (setScore (a :: l)
                (c.score + adjusted_content_score opts.candidate_score S level) cands₁)
                key = lookupA cands₁ key := by
            intro key hkey
            rw [lookupA_setScore, if_neg hkey]
          have hres' : (find_or_create_candidate opts (ancestor e ((a :: l).dropLast))
              (setScore (a :: l)
                (c.score + adjusted_content_score opts.candidate_score S level) cands₁)
              nodes).2 = some cT := by
            rw [foc_snd_congr opts _ cands _ nodes
              (by rw [← htarget, hsetkeep _ hne_t_cur]; exact hlookT), ← htarget]
            exact hres
          have hbody' : ∀ j, j < e → ancestor j ((a :: l).dropLast) ≠ nodeId →
              ∀ c₂, (find_or_create_candidate opts (ancestor j ((a :: l).dropLast))
                (setScore (a :: l)
                  (c.score + adjusted_content_score opts.candidate_score S level) cands₁)
                nodes).2 = some c₂ → get_tag_name c₂.node ≠ some "body" := by
            intro j hj hnej c₂ hc
            have hkne : ancestor (j + 1) (a :: l) ≠ (a :: l) := by
              apply ancestor_ne_of_length_lt
              rw [ancestor_length, hlen_cons]
              omega
            have hl : lookupA cands₁ (ancestor (j + 1) (a :: l)) =
                lookupA cands (ancestor (j + 1) (a :: l)) := by
              have h := foc_fst_lookup opts (a :: l) cands nodes _ hkne
              rw [hfo] at h; exact h
            rw [ancestor_succ] at hl hkne
            rw [foc_snd_congr opts _ cands _ nodes (by rw [hsetkeep _ hkne, hl])] at hc
            exact hbody (j + 1) (by omega) (by rwa [ancestor_succ]) c₂
              (by rwa [ancestor_succ])
          have hdec : decide (get_tag_name c.node = some "body") = false := by
            simp [hbnot]
          have hrec := propagate_visit opts S nodeId nodes e ((a :: l).dropLast)
            (level + 1) _ cT hd' hcur' hne' hmax' hres' hbody'
          rw [harith, ← htarget] at hrec
          simpa [hdec] using hrec
termination_by d
decreasing_by all_goals omega


/-! Concrete fixtures for witnesses and counterexamples. -/

/-- A regex stub that never matches. -/
def noRx : String → Bool := fun _ => false

/-- Concrete options mirroring `ScorerOptions::default()` with stub
regexes (`EqualWeight`, `max_candidate_parents = 10`,
`min_candidate_length = 20`). -/
def optsEq : ScorerOptions :=
  { min_candidate_length := 20
    max_candidate_parents := 10
    candidate_score := .equalWeight
    punctuations := fun _ => 0
    unlikely_candidates := noRx
    likely_candidates := noRx
    positive_candidates := noRx
    positive_candidate_weight := 25
    negative_candidates := noRx
    negative_candidate_weight := 25
    block_child_tags := ["a", "blockquote", "dl", "div", "img", "ol", "p", "pre", "table", "ul"] }

/-- The default options with `LevelWeight` scoring. -/
def optsLvl : ScorerOptions := { optsEq with candidate_score := .levelWeight }

/-- The default options with `max_candidate_parents = 2`. -/
def optsK2 : ScorerOptions := { optsEq with max_candidate_parents := 2 }

/-- A 20-character text. -/
def t20 : String := "aaaaaaaaaaaaaaaaaaaa"

/-- A `p` element holding 20 characters of text. -/
def pNode : DNode := .mk (.element "p" []) [.mk (.text t20) []]

/-- A `div` element holding `pNode`. -/
def divNode : DNode := .mk (.element "div" []) [pNode]

/-- A document root holding `divNode`. -/
def rootNode : DNode := .mk .document [divNode]

/-- The node map produced for `rootNode` up to the `p` node. -/
def wNodes : AMap DNode := [([], rootNode), ([0], divNode), ([0, 0], pNode)]

/-- Claim C1 (corrected): during score propagation in `find_candidates`,
an ancestor at distance `d` from the candidate node (`d = 1` for the
parent) that resolves to a candidate record receives exactly one score
share on top of that record's score: the full content score `S` under
`EqualWeight`, and `S / (d + 1)` under `LevelWeight` — the loop level at
the ancestor is `d + 1` because `level` starts at 1 at the candidate
node itself, so the parent's share is `S / 2`, not `S / 1` as the claim
states. -/
theorem c1_theorem (opts : ScorerOptions) (S : ℚ) (nodeId : PathKey)
    (nodes : AMap DNode) (cands : AMap Candidate) (d : Nat) (cT : Candidate)
    (hd1 : 1 ≤ d) (hd2 : d ≤ nodeId.length)
    (hmax : d + 1 ≤ opts.max_candidate_parents)
    (hres : (find_or_create_candidate opts (ancestor d nodeId) cands nodes).2 = some cT)
    (hbody : ∀ j, 1 ≤ j → j < d →
      ∀ c, (find_or_create_candidate opts (ancestor j nodeId) cands nodes).2 = some c →
        get_tag_name c.node ≠ some "body") :
    ∃ c', lookupA (propagate opts S nodeId nodes nodeId 1 cands) (ancestor d nodeId) =
        some c' ∧
      c'.score = cT.score +
        (match opts.candidate_score with
         | CandidateScore.equalWeight => S
         | CandidateScore.levelWeight => S / ((d + 1 : ℕ) : ℚ)) := by
  have hbody' : ∀ j, j < d → ancestor j nodeId ≠ nodeId →
      ∀ c, (find_or_create_candidate opts (ancestor j nodeId) cands nodes).2 = some c →
        get_tag_name c.node ≠ some "body" := by
    intro j hj hnej c hc
    rcases Nat.eq_zero_or_pos j with h0 | hpos
    · subst h0; rw [ancestor_zero] at hnej; exact absurd rfl hnej
    · exact hbody j hpos hj c hc
  obtain ⟨c', h1, _, h3⟩ := propagate_visit opts S nodeId nodes d nodeId 1 cands cT
    hd2 le_rfl (fun _ => hd1) (by omega) hres hbody'
  refine ⟨c', h1, ?_⟩
  rw [h3]
  congr 1
  cases opts.candidate_score <;> simp [adjusted_content_score, Nat.add_comm]

/-- Witness for C1: in a concrete run (`LevelWeight`, content score `1`,
candidate at path `/0/0`), the parent `div` record is created at its
initial score `5` and receives `1 / 2`. -/
theorem c1_witness :
    ∃ c', lookupA (propagate optsLvl 1 [0, 0] wNodes [0, 0] 1 []) [0] = some c' ∧
      c'.score = 5 + 1 / 2 := by
  have hanc : ancestor 1 [0, 0] = [0] := rfl
  have hres : (find_or_create_candidate optsLvl [0] [] wNodes).2 =
      some ⟨divNode, 5⟩ := by
    simp +decide [find_or_create_candidate, lookupA, wNodes, init_content_score,
      get_tag_name, get_class_weight, classWeightContrib, attr, DNode.data,
      divNode, pNode, lowerStr, lowerChar]
  obtain ⟨c', h1, h2⟩ := c1_theorem optsLvl 1 [0, 0] wNodes [] 1 ⟨divNode, 5⟩
    (by omega) (by simp) (by simp [optsLvl, optsEq]) (hanc ▸ hres)
    (fun j hj1 hj2 => absurd (lt_of_le_of_lt hj1 hj2) (by omega))
  rw [hanc] at h1
  refine ⟨c', h1, ?_⟩
  rw [h2]
  norm_num [optsLvl, optsEq]

/-- Counterexample to C1 as stated: with `LevelWeight` and a candidate
`p` (content score `S = 1`) at path `/0/0`, the parent `div` record —
created at initial score `5` — ends at `5 + 1/2`, not at `5 + S/1 = 6`
as the claim's "level starts at 1 for the parent" predicts. -/
theorem c1_counterexample :
    ((lookupA (find_candidates optsLvl [] rootNode ⟨[], []⟩).candidates [0]).map
      Candidate.score) = some (11 / 2) ∧ (11 / 2 : ℚ) ≠ 5 + 1 := by
  constructor
  · simp +decide [find_candidates, findCandidatesT, findCandidatesTChildren, propagate,
      find_or_create_candidate, adjusted_content_score, setScore, binsert, lookupA,
      is_candidate, calculate_content_score, init_content_score, get_class_weight,
      classWeightContrib, get_tag_name, attr, text_len, textLenChildren,
      extract_text, extractTextChildren, has_nodes, hasNodesChildren, trimStr,
      lowerStr, lowerChar, wsChar, strLt, strLt.go, pathStr, optsLvl, optsEq, t20,
      pNode, divNode, rootNode, DNode.data, noRx]
    norm_num
  · norm_num


/-- Claim C2 (corrected): with `max_candidate_parents = k` (`k ≥ 1`) and
at least `k` proper ancestors resolvable in the node map (none of them a
`body` candidate), the propagation loop distributes a share to exactly
the first `k - 1` ancestors — not `k`: the loop runs levels `1 .. k`,
and level 1 is spent on the candidate node itself, which the
`current_id != node_id` guard skips. Ancestors at distance `k` and
beyond are untouched. -/
theorem c2_theorem (opts : ScorerOptions) (S : ℚ) (nodeId : PathKey)
    (nodes : AMap DNode) (cands : AMap Candidate) (k : Nat)
    (hk : opts.max_candidate_parents = k) (h1 : 1 ≤ k) (hlen : k ≤ nodeId.length)
    (hres : ∀ d, 1 ≤ d → d ≤ k - 1 →
      ∃ c, (find_or_create_candidate opts (ancestor d nodeId) cands nodes).2 = some c ∧
        get_tag_name c.node ≠ some "body") :
    (∀ d, 1 ≤ d → d ≤ k - 1 →
      ∀ c, (find_or_create_candidate opts (ancestor d nodeId) cands nodes).2 = some c →
        ∃ c', lookupA (propagate opts S nodeId nodes nodeId 1 cands)
            (ancestor d nodeId) = some c' ∧
          c'.score = c.score + adjusted_content_score opts.candidate_score S (d + 1)) ∧
    (∀ d, k ≤ d →
      lookupA (propagate opts S nodeId nodes nodeId 1 cands) (ancestor d nodeId) =
        lookupA cands (ancestor d nodeId)) := by
  constructor
  · intro d hd1 hd2 c hc
    have hbody' : ∀ j, j < d → ancestor j nodeId ≠ nodeId →
        ∀ c₂, (find_or_create_candidate opts (ancestor j nodeId) cands nodes).2 =
          some c₂ → get_tag_name c₂.node ≠ some "body" := by
      intro j hj hnej c₂ hc₂
      rcases Nat.eq_zero_or_pos j with h0 | hpos
      · subst h0; rw [ancestor_zero] at hnej; exact absurd rfl hnej
      · obtain ⟨c₃, hc₃, hb₃⟩ := hres j hpos (by omega)
        have : c₂ = c₃ := by rw [hc₂] at hc₃; exact Option.some_inj.mp hc₃
        rw [this]; exact hb₃
    obtain ⟨c', h1', _, h3⟩ := propagate_visit opts S nodeId nodes d nodeId 1 cands c
      (by omega) le_rfl (fun _ => hd1) (by omega) hc hbody'
    refine ⟨c', h1', ?_⟩
    rw [h3, Nat.add_comm 1 d]
  · intro d hd
    apply propagate_untouched
    intro j hj
    apply ancestor_ne_of_length_lt
    rw [ancestor_length, ancestor_length]
    rw [hk] at hj
    omega

/-- Witness for C2: with `max_candidate_parents = 2` and a candidate at
path `/0/0` with two resolvable non-body ancestors, the parent receives
a share and the grandparent (distance 2 = k) receives nothing. -/
theorem c2_witness :
    (∃ c', lookupA (propagate optsK2 1 [0, 0] wNodes [0, 0] 1 []) [0] = some c' ∧
      c'.score = 5 + 1) ∧
    lookupA (propagate optsK2 1 [0, 0] wNodes [0, 0] 1 []) [] = none := by
  have hres : ∀ d, 1 ≤ d → d ≤ 2 - 1 →
      ∃ c, (find_or_create_candidate optsK2 (ancestor d [0, 0]) [] wNodes).2 = some c ∧
        get_tag_name c.node ≠ some "body" := by
    intro d hd1 hd2
    have hd : d = 1 := by omega
    subst hd
    refine ⟨⟨divNode, 5⟩, ?_, ?_⟩
    · show (find_or_create_candidate optsK2 [0] [] wNodes).2 = some ⟨divNode, 5⟩
      simp +decide [find_or_create_candidate, lookupA, wNodes, init_content_score,
        get_tag_name, get_class_weight, classWeightContrib, attr, DNode.data,
        divNode, pNode, lowerStr, lowerChar]
    · simp +decide [get_tag_name, divNode, lowerStr, lowerChar, DNode.data]
  have h := c2_theorem optsK2 1 [0, 0] wNodes [] 2 rfl (by omega) (by simp) hres
  constructor
  · obtain ⟨c₀, hc₀, hb₀⟩ := hres 1 le_rfl le_rfl
    obtain ⟨c', h1', h2'⟩ := h.1 1 le_rfl le_rfl c₀ hc₀
    have hanc : ancestor 1 [0, 0] = [0] := rfl
    rw [hanc] at h1'
    refine ⟨c', h1', ?_⟩
    rw [h2']
    have hc₀5 : c₀ = ⟨divNode, 5⟩ := by
      have hfoc : (find_or_create_candidate optsK2 [0] [] wNodes).2 =
          some (⟨divNode, 5⟩ : Candidate) := by
        simp +decide [find_or_create_candidate, lookupA, wNodes, init_content_score,
          get_tag_name, get_class_weight, classWeightContrib, attr, DNode.data,
          divNode, pNode, lowerStr, lowerChar]
      have hanc1 : ancestor 1 [0, 0] = [0] := rfl
      rw [hanc1] at hc₀
      rw [hc₀] at hfoc
      exact Option.some_inj.mp hfoc
    rw [hc₀5]
    norm_num [adjusted_content_score, optsK2, optsEq]
  · have h2 := h.2 2 le_rfl
    have hanc : ancestor 2 [0, 0] = [] := rfl
    rw [hanc] at h2
    rw [h2]
    rfl

/-- Counterexample to C2 as stated: with `max_candidate_parents = 2` and
a candidate at `/0/0` whose two proper ancestors (`div` at `/0`, the
document root at `/`) are both in the node map and neither is `body`,
only the parent `/0` receives a share; the claim predicts that the first
2 ancestors do, but the root gets no candidate record at all. -/
theorem c2_counterexample :
    lookupA (find_candidates optsK2 [] rootNode ⟨[], []⟩).candidates [] = none ∧
    (lookupA (find_candidates optsK2 [] rootNode ⟨[], []⟩).candidates [0]).isSome =
      true := by
  constructor <;>
    simp +decide [find_candidates, findCandidatesT, findCandidatesTChildren, propagate,
      find_or_create_candidate, adjusted_content_score, setScore, binsert, lookupA,
      is_candidate, calculate_content_score, init_content_score, get_class_weight,
      classWeightContrib, get_tag_name, attr, text_len, textLenChildren,
      extract_text, extractTextChildren, has_nodes, hasNodesChildren, trimStr,
      lowerStr, lowerChar, wsChar, strLt, strLt.go, pathStr, optsK2, optsEq, t20,
      pNode, divNode, rootNode, DNode.data, noRx]


theorem calculate_content_score_ge_one (opts : ScorerOptions) (node : DNode) :
    1 ≤ calculate_content_score opts node := by
  unfold calculate_content_score
  have h1 : (0 : ℚ) ≤ (opts.punctuations (extract_text node "") : ℚ) :=
    Nat.cast_nonneg _
  have h2 : (0 : ℚ) ≤
      ((min ((extract_text node "").data.length / 100) 3 : ℕ) : ℚ) :=
    Nat.cast_nonneg _
  linarith

theorem adjusted_content_score_nonneg (cs : CandidateScore) (S : ℚ) (level : Nat)
    (hS : 0 ≤ S) : 0 ≤ adjusted_content_score cs S level := by
  cases cs with
  | equalWeight => exact hS
  | levelWeight => exact div_nonneg hS (Nat.cast_nonneg _)

theorem adjusted_content_score_pos (cs : CandidateScore) (S : ℚ) (level : Nat)
    (hS : 1 ≤ S) (hl : 1 ≤ level) : 0 < adjusted_content_score cs S level := by
  cases cs with
  | equalWeight => exact lt_of_lt_of_le one_pos hS
  | levelWeight =>
    apply div_pos (lt_of_lt_of_le one_pos hS)
    exact_mod_cast Nat.lt_of_lt_of_le Nat.zero_lt_one hl

theorem foc_none_fst (opts : ScorerOptions) (id : PathKey) (cands : AMap Candidate)
    (nodes : AMap DNode) (h : (find_or_create_candidate opts id cands nodes).2 = none) :
    (find_or_create_candidate opts id cands nodes).1 = cands := by
  unfold find_or_create_candidate at h ⊢
  cases hn : lookupA nodes id with
  | none => simp [hn]
  | some node =>
    simp only [hn] at h ⊢
    cases hc : lookupA cands id with
    | none => simp [hc] at h
    | some c => simp [hc]

theorem foc_existing (opts : ScorerOptions) (id : PathKey) (cands : AMap Candidate)
    (nodes : AMap DNode) (c c₀ : Candidate) (hc : lookupA cands id = some c)
    (h : (find_or_create_candidate opts id cands nodes).2 = some c₀) : c₀ = c := by
  unfold find_or_create_candidate at h
  cases hn : lookupA nodes id with
  | none => rw [hn] at h; simp at h
  | some node =>
    rw [hn, hc] at h
    simpa using h.symm

/-- Monotonicity of the propagation loop: an existing candidate record is
never removed, its node is never replaced, and its score never
decreases (each update adds a nonnegative share). -/
theorem propagate_mono (opts : ScorerOptions) (S : ℚ) (nodeId : PathKey)
    (nodes : AMap DNode) (hS : 0 ≤ S) (cur : PathKey) (level : Nat)
    (cands : AMap Candidate) (k : PathKey) (c : Candidate)
    (h : lookupA cands k = some c) :
    ∃ c', lookupA (propagate opts S nodeId nodes cur level cands) k = some c' ∧
      c'.node = c.node ∧ c.score ≤ c'.score := by
  rw [propagate]
  by_cases hlev : opts.max_candidate_parents < level
  · exact ⟨c, by simp [hlev, h], rfl, le_rfl⟩
  · rw [if_neg hlev]
    by_cases hn : cur = nodeId
    · have hcond : ¬ (cur ≠ nodeId) := fun hx => hx hn
      rw [if_neg hcond]
      cases cur with
      | nil => exact ⟨c, by simpa using h, rfl, le_rfl⟩
      | cons a l =>
        simpa using propagate_mono opts S nodeId nodes hS ((a :: l).dropLast)
          (level + 1) cands k c h
    · rw [if_pos hn]
      rcases hfo : find_or_create_candidate opts cur cands nodes with ⟨cands₁, copt⟩
      cases copt with
      | none =>
        have hfst : cands₁ = cands := by
          have := foc_none_fst opts cur cands nodes (by rw [hfo])
          rw [hfo] at this; exact this
        rw [hfst]
        cases cur with
        | nil => exact ⟨c, by simpa using h, rfl, le_rfl⟩
        | cons a l =>
          simpa using propagate_mono opts S nodeId nodes hS ((a :: l).dropLast)
            (level + 1) cands k c h
      | some c₀ =>
        have hstep : ∃ c₁, lookupA (setScore cur
            (c₀.score + adjusted_content_score opts.candidate_score S level) cands₁)
            k = some c₁ ∧ c₁.node = c.node ∧ c.score ≤ c₁.score := by
          by_cases hkc : k = cur
          · subst hkc
            have hc₀ : c₀ = c := foc_existing opts k cands nodes c c₀ h (by rw [hfo])
            subst hc₀
            have hself : lookupA cands₁ k = some c₀ := by
              have h₂ := foc_lookup_self opts k cands nodes c₀ (by rw [hfo])
              rw [hfo] at h₂; exact h₂
            rw [lookupA_setScore, if_pos rfl, hself]
            refine ⟨_, rfl, rfl, ?_⟩
            have := adjusted_content_score_nonneg opts.candidate_score S level hS
            simp only
            linarith
          · have hkeep : lookupA cands₁ k = lookupA cands k := by
              have h₂ := foc_fst_lookup opts cur cands nodes k hkc
              rw [hfo] at h₂; exact h₂
            rw [lookupA_setScore, if_neg hkc, hkeep, h]
            exact ⟨c, rfl, rfl, le_rfl⟩
        obtain ⟨c₁, h₁, hn₁, hs₁⟩ := hstep
        by_cases hb : get_tag_name c₀.node = some "body"
        · refine ⟨c₁, ?_, hn₁, hs₁⟩
          simpa [hb] using h₁
        · cases cur with
          | nil =>
            refine ⟨c₁, ?_, hn₁, hs₁⟩
            simpa [hb] using h₁
          | cons a l =>
            obtain ⟨c₂, h₂, hn₂, hs₂⟩ := propagate_mono opts S nodeId nodes hS
              ((a :: l).dropLast) (level + 1) _ k c₁ h₁
            refine ⟨c₂, ?_, hn₂.trans hn₁, hs₁.trans hs₂⟩
            simpa [hb] using h₂
termination_by cur.length
decreasing_by all_goals
  (try simp_wf; try subst_vars; try simp [List.length_dropLast]; try omega)

mutual

/-- The tree component of `findCandidatesT` is the tree it was given:
`find_candidates` never mutates the DOM. -/
theorem findCandidatesT_fst :
    ∀ (opts : ScorerOptions) (nodeId : PathKey) (node : DNode) (st : FCState),
      (findCandidatesT opts nodeId node st).1 = node
  | opts, nodeId, .mk data cs, st => by
    have h := findCandidatesTChildren_fst opts nodeId 0 cs
    rw [findCandidatesT]
    simp only
    split <;> rw [h]

/-- The list component of `findCandidatesTChildren` is the list it was
given. -/
theorem findCandidatesTChildren_fst :
    ∀ (opts : ScorerOptions) (nodeId : PathKey) (i : Nat) (l : List DNode)
      (st : FCState), (findCandidatesTChildren opts nodeId i l st).1 = l
  | opts, nodeId, i, [], st => by rw [findCandidatesTChildren]
  | opts, nodeId, i, c :: rest, st => by
    have h1 := findCandidatesT_fst opts (nodeId ++ [i]) c st
    have h2 := findCandidatesTChildren_fst opts nodeId (i + 1) rest
      (findCandidatesT opts (nodeId ++ [i]) c st).2
    rw [findCandidatesTChildren]
    simp only
    rw [h1, h2]

end

mutual

/-- Candidate records survive the whole `find_candidates` traversal with
their node intact and their score never decreasing. -/
theorem findCandidatesT_mono :
    ∀ (opts : ScorerOptions) (nodeId : PathKey) (node : DNode) (st : FCState)
      (k : PathKey) (c : Candidate), lookupA st.candidates k = some c →
      ∃ c', lookupA (findCandidatesT opts nodeId node st).2.candidates k = some c' ∧
        c'.node = c.node ∧ c.score ≤ c'.score
  | opts, nodeId, .mk data cs, st, k, c, h => by
    rw [findCandidatesT]
    simp only
    by_cases hcand : is_candidate opts (.mk data cs)
    · rw [if_pos hcand]
      have hS : (0 : ℚ) ≤ calculate_content_score opts (.mk data cs) :=
        le_trans zero_le_one (calculate_content_score_ge_one opts _)
      obtain ⟨c₁, h₁, hn₁, hs₁⟩ := propagate_mono opts _ nodeId _ hS nodeId 1
        st.candidates k c h
      obtain ⟨c₂, h₂, hn₂, hs₂⟩ := findCandidatesTChildren_mono opts nodeId 0 cs
        ⟨_, _⟩ k c₁ h₁
      exact ⟨c₂, h₂, hn₂.trans hn₁, hs₁.trans hs₂⟩
    · rw [if_neg hcand]
      exact findCandidatesTChildren_mono opts nodeId 0 cs ⟨_, _⟩ k c h

/-- List version of `findCandidatesT_mono`. -/
theorem findCandidatesTChildren_mono :
    ∀ (opts : ScorerOptions) (nodeId : PathKey) (i : Nat) (l : List DNode)
      (st : FCState) (k : PathKey) (c : Candidate),
      lookupA st.candidates k = some c →
      ∃ c', lookupA (findCandidatesTChildren opts nodeId i l st).2.candidates k =
          some c' ∧ c'.node = c.node ∧ c.score ≤ c'.score
  | opts, nodeId, i, [], st, k, c, h => by
    rw [findCandidatesTChildren]
    exact ⟨c, h, rfl, le_rfl⟩
  | opts, nodeId, i, cn :: rest, st, k, c, h => by
    obtain ⟨c₁, h₁, hn₁, hs₁⟩ := findCandidatesT_mono opts (nodeId ++ [i]) cn st k c h
    obtain ⟨c₂, h₂, hn₂, hs₂⟩ := findCandidatesTChildren_mono opts nodeId (i + 1)
      rest (findCandidatesT opts (nodeId ++ [i]) cn st).2 k c₁ h₁
    rw [findCandidatesTChildren]
    exact ⟨c₂, h₂, hn₂.trans hn₁, hs₁.trans hs₂⟩

end


mutual

/-- Node-map entries are never removed by the traversal. -/
theorem findCandidatesT_nodes :
    ∀ (opts : ScorerOptions) (nodeId : PathKey) (node : DNode) (st : FCState)
      (k : PathKey) (v : DNode), lookupA st.nodes k = some v →
      ∃ v', lookupA (findCandidatesT opts nodeId node st).2.nodes k = some v'
  | opts, nodeId, .mk data cs, st, k, v, h => by
    rw [findCandidatesT]
    simp only
    have hbin : ∃ v', lookupA (binsert nodeId (DNode.mk data cs) st.nodes) k =
        some v' := by
      rw [lookupA_binsert]
      by_cases hk : k = nodeId
      · exact ⟨_, by rw [if_pos hk]⟩
      · exact ⟨v, by rw [if_neg hk]; exact h⟩
    obtain ⟨v₁, h₁⟩ := hbin
    by_cases hcand : is_candidate opts (.mk data cs)
    · rw [if_pos hcand]
      exact findCandidatesTChildren_nodes opts nodeId 0 cs ⟨_, _⟩ k v₁ h₁
    · rw [if_neg hcand]
      exact findCandidatesTChildren_nodes opts nodeId 0 cs ⟨_, _⟩ k v₁ h₁

/-- List version of `findCandidatesT_nodes`. -/
theorem findCandidatesTChildren_nodes :
    ∀ (opts : ScorerOptions) (nodeId : PathKey) (i : Nat) (l : List DNode)
      (st : FCState) (k : PathKey) (v : DNode), lookupA st.nodes k = some v →
      ∃ v', lookupA (findCandidatesTChildren opts nodeId i l st).2.nodes k = some v'
  | opts, nodeId, i, [], st, k, v, h => by
    rw [findCandidatesTChildren]
    exact ⟨v, h⟩
  | opts, nodeId, i, cn :: rest, st, k, v, h => by
    obtain ⟨v₁, h₁⟩ := findCandidatesT_nodes opts (nodeId ++ [i]) cn st k v h
    obtain ⟨v₂, h₂⟩ := findCandidatesTChildren_nodes opts nodeId (i + 1) rest
      (findCandidatesT opts (nodeId ++ [i]) cn st).2 k v₁ h₁
    rw [findCandidatesTChildren]
    exact ⟨v₂, h₂⟩

end

/-- Claim C8: the content score is always at least 1; every share added
during propagation is strictly positive; and across a whole
`find_candidates` run every existing candidate record keeps a score
that never decreases. -/
theorem c8_theorem :
    (∀ (opts : ScorerOptions) (node : DNode), 1 ≤ calculate_content_score opts node) ∧
    (∀ (cs : CandidateScore) (S : ℚ) (level : Nat), 1 ≤ S → 1 ≤ level →
      0 < adjusted_content_score cs S level) ∧
    (∀ (opts : ScorerOptions) (nodeId : PathKey) (node : DNode) (st : FCState)
      (k : PathKey) (c : Candidate), lookupA st.candidates k = some c →
      ∃ c', lookupA (find_candidates opts nodeId node st).candidates k = some c' ∧
        c.score ≤ c'.score) := by
  refine ⟨calculate_content_score_ge_one, adjusted_content_score_pos, ?_⟩
  intro opts nodeId node st k c h
  obtain ⟨c', h1, _, h3⟩ := findCandidatesT_mono opts nodeId node st k c h
  exact ⟨c', h1, h3⟩

/-- Witness for C8: a concrete content score is at least 1, a concrete
`LevelWeight` share is positive, and a pre-existing record with score 3
still has score at least 3 after a concrete `find_candidates` run. -/
theorem c8_witness :
    (1 ≤ calculate_content_score optsEq pNode) ∧
    (0 < adjusted_content_score CandidateScore.levelWeight 1 2) ∧
    (∃ c', lookupA (find_candidates optsEq [] rootNode
        ⟨[([], ⟨rootNode, 3⟩)], []⟩).candidates [] = some c' ∧ (3 : ℚ) ≤ c'.score) := by
  refine ⟨c8_theorem.1 optsEq pNode, c8_theorem.2.1 _ 1 2 le_rfl (by omega), ?_⟩
  obtain ⟨c', h1, h2⟩ := c8_theorem.2.2 optsEq [] rootNode ⟨[([], ⟨rootNode, 3⟩)], []⟩
    [] ⟨rootNode, 3⟩ (by simp [lookupA])
  exact ⟨c', h1, h2⟩

/-- Claim C10: `find_candidates` never mutates the DOM — the walked tree
comes back unchanged — and the maps only grow: node-map and
candidate-map entries are never removed, and an existing candidate
record keeps its node (only the score inside the record is updated). -/
theorem c10_theorem :
    (∀ (opts : ScorerOptions) (nodeId : PathKey) (node : DNode) (st : FCState),
      (findCandidatesT opts nodeId node st).1 = node) ∧
    (∀ (opts : ScorerOptions) (nodeId : PathKey) (node : DNode) (st : FCState)
      (k : PathKey), lookupA (find_candidates opts nodeId node st).nodes k = none →
      lookupA st.nodes k = none) ∧
    (∀ (opts : ScorerOptions) (nodeId : PathKey) (node : DNode) (st : FCState)
      (k : PathKey),
      lookupA (find_candidates opts nodeId node st).candidates k = none →
      lookupA st.candidates k = none) ∧
    (∀ (opts : ScorerOptions) (nodeId : PathKey) (node : DNode) (st : FCState)
      (k : PathKey) (c : Candidate), lookupA st.candidates k = some c →
      ∃ c', lookupA (find_candidates opts nodeId node st).candidates k = some c' ∧
        c'.node = c.node) := by
  refine ⟨findCandidatesT_fst, ?_, ?_, ?_⟩
  · intro opts nodeId node st k h
    cases hv : lookupA st.nodes k with
    | none => rfl
    | some v =>
      obtain ⟨v', h'⟩ := findCandidatesT_nodes opts nodeId node st k v hv
      rw [show (find_candidates opts nodeId node st).nodes =
        (findCandidatesT opts nodeId node st).2.nodes from rfl] at h
      rw [h'] at h
      exact absurd h (by simp)
  · intro opts nodeId node st k h
    cases hv : lookupA st.candidates k with
    | none => rfl
    | some c =>
      obtain ⟨c', h', _, _⟩ := findCandidatesT_mono opts nodeId node st k c hv
      rw [show (find_candidates opts nodeId node st).candidates =
        (findCandidatesT opts nodeId node st).2.candidates from rfl] at h
      rw [h'] at h
      exact absurd h (by simp)
  · intro opts nodeId node st k c h
    obtain ⟨c', h1, h2, _⟩ := findCandidatesT_mono opts nodeId node st k c h
    exact ⟨c', h1, h2⟩

/-- Witness for C10: on a concrete run the tree comes back unchanged, a
key absent from the result maps was absent before, and a pre-existing
record keeps its node. -/
theorem c10_witness :
    ((findCandidatesT optsEq [] rootNode ⟨[], []⟩).1 = rootNode) ∧
    (lookupA (⟨[([], ⟨divNode, 2⟩)], []⟩ : FCState).nodes [5] = none) ∧
    (∃ c', lookupA (find_candidates optsEq [] rootNode
        ⟨[([], ⟨divNode, 2⟩)], []⟩).candidates [] = some c' ∧ c'.node = divNode) := by
  refine ⟨c10_theorem.1 optsEq [] rootNode ⟨[], []⟩, ?_, ?_⟩
  · refine c10_theorem.2.1 optsEq [] rootNode ⟨[([], ⟨divNode, 2⟩)], []⟩ [5] ?_
    simp +decide [find_candidates, findCandidatesT, findCandidatesTChildren, propagate,
      find_or_create_candidate, adjusted_content_score, setScore, binsert, lookupA,
      is_candidate, calculate_content_score, init_content_score, get_class_weight,
      classWeightContrib, get_tag_name, attr, text_len, textLenChildren,
      extract_text, extractTextChildren, has_nodes, hasNodesChildren, trimStr,
      lowerStr, lowerChar, wsChar, strLt, strLt.go, pathStr, optsEq, t20,
      pNode, divNode, rootNode, DNode.data, noRx]
  · obtain ⟨c', h1, h2⟩ := c10_theorem.2.2.2 optsEq [] rootNode
      ⟨[([], ⟨divNode, 2⟩)], []⟩ [] ⟨divNode, 2⟩ (by simp [lookupA])
    exact ⟨c', h1, h2⟩


/-- The per-entry adjustment of `find_top_candidate`: the stored score
multiplied by `1 - link density`. -/
def adjustCandidate (c : Candidate) : Candidate :=
  ⟨c.node, c.score * (1 - get_link_density c.node)⟩

theorem findTopLoop_fst (l : List (PathKey × Candidate))
    (top : Option (PathKey × Candidate)) :
    (findTopLoop l top).1 = l.map (fun e => (e.1, adjustCandidate e.2)) := by
  induction l generalizing top with
  | nil => simp [findTopLoop]
  | cons e rest ih =>
    cases e with
    | mk id c => simp [findTopLoop, adjustCandidate, ih]

theorem ftl_isSome (l : List (PathKey × Candidate)) (t : PathKey × Candidate) :
    ((findTopLoop l (some t)).2).isSome = true := by
  induction l generalizing t with
  | nil => rfl
  | cons hd rest ih =>
    cases hd with
    | mk id c =>
      by_cases hlt : t.2.score < c.score * (1 - get_link_density c.node)
      · simpa [findTopLoop, hlt] using ih _
      · simpa [findTopLoop, hlt] using ih _

theorem findTopLoop_none_iff (l : List (PathKey × Candidate))
    (top : Option (PathKey × Candidate)) :
    (findTopLoop l top).2 = none ↔ (l = [] ∧ top = none) := by
  cases l with
  | nil =>
    cases top with
    | none => simp [findTopLoop]
    | some t => simp [findTopLoop]
  | cons hd rest =>
    cases hd with
    | mk id c =>
      cases top with
      | none =>
        have h := ftl_isSome rest (id, adjustCandidate c)
        constructor
        · intro hnone
          have hstep : (findTopLoop ((id, c) :: rest) none).2 =
              (findTopLoop rest (some (id, adjustCandidate c))).2 := by
            simp [findTopLoop, adjustCandidate]
          rw [hstep] at hnone
          rw [hnone] at h
          simp at h
        · rintro ⟨h1, -⟩
          simp at h1
      | some t =>
        have h := ftl_isSome ((id, c) :: rest) t
        constructor
        · intro hnone
          rw [hnone] at h
          simp at h
        · rintro ⟨-, h2⟩
          simp at h2

theorem ftl_some (l : List (PathKey × Candidate)) (t : PathKey × Candidate) :
    ((findTopLoop l (some t)).2 = some t ∧
      ∀ e' ∈ l, (adjustCandidate e'.2).score ≤ t.2.score) ∨
    (∃ l₁ e l₂, l = l₁ ++ e :: l₂ ∧
      (findTopLoop l (some t)).2 = some (e.1, adjustCandidate e.2) ∧
      t.2.score < (adjustCandidate e.2).score ∧
      (∀ e' ∈ l₁, (adjustCandidate e'.2).score < (adjustCandidate e.2).score) ∧
      (∀ e' ∈ l₂, (adjustCandidate e'.2).score ≤ (adjustCandidate e.2).score)) := by
  induction l generalizing t with
  | nil => exact Or.inl ⟨by simp [findTopLoop], by simp⟩
  | cons hd rest ih =>
    cases hd with
    | mk id c =>
      by_cases hlt : t.2.score < c.score * (1 - get_link_density c.node)
      · have hstep : (findTopLoop ((id, c) :: rest) (some t)).2 =
            (findTopLoop rest (some (id, adjustCandidate c))).2 := by
          simp [findTopLoop, hlt, adjustCandidate]
        rcases ih (id, adjustCandidate c) with ⟨h1, h2⟩ | ⟨l₁, e, l₂, heq, hres, hgt, hl₁, hl₂⟩
        · refine Or.inr ⟨[], (id, c), rest, rfl, ?_, ?_, by simp, ?_⟩
          · rw [hstep, h1]
          · exact hlt
          · intro e' he'
            exact h2 e' he'
        · refine Or.inr ⟨(id, c) :: l₁, e, l₂, by rw [heq]; rfl, by rw [hstep, hres], ?_, ?_, hl₂⟩
          · exact lt_trans hlt hgt
          · intro e' he'
            rcases List.mem_cons.mp he' with h | h
            · rw [h]
              exact hgt
            · exact hl₁ e' h
      · have hstep : (findTopLoop ((id, c) :: rest) (some t)).2 =
            (findTopLoop rest (some t)).2 := by
          simp [findTopLoop, hlt]
        rcases ih t with ⟨h1, h2⟩ | ⟨l₁, e, l₂, heq, hres, hgt, hl₁, hl₂⟩
        · refine Or.inl ⟨by rw [hstep, h1], ?_⟩
          intro e' he'
          rcases List.mem_cons.mp he' with h | h
          · rw [h]
            exact le_of_not_lt hlt
          · exact h2 e' h
        · refine Or.inr ⟨(id, c) :: l₁, e, l₂, by rw [heq]; rfl, by rw [hstep, hres], hgt, ?_, hl₂⟩
          intro e' he'
          rcases List.mem_cons.mp he' with h | h
          · rw [h]
            exact lt_of_le_of_lt (le_of_not_lt hlt) hgt
          · exact hl₁ e' h

theorem ftl_none (l : List (PathKey × Candidate)) (hl : l ≠ []) :
    ∃ l₁ e l₂, l = l₁ ++ e :: l₂ ∧
      (findTopLoop l none).2 = some (e.1, adjustCandidate e.2) ∧
      (∀ e' ∈ l₁, (adjustCandidate e'.2).score < (adjustCandidate e.2).score) ∧
      (∀ e' ∈ l₂, (adjustCandidate e'.2).score ≤ (adjustCandidate e.2).score) := by
  cases l with
  | nil => exact absurd rfl hl
  | cons hd rest =>
    cases hd with
    | mk id c =>
      have hstep : (findTopLoop ((id, c) :: rest) none).2 =
          (findTopLoop rest (some (id, adjustCandidate c))).2 := by
        simp [findTopLoop, adjustCandidate]
      rcases ftl_some rest (id, adjustCandidate c) with ⟨h1, h2⟩ |
        ⟨l₁, e, l₂, heq, hres, hgt, hl₁, hl₂⟩
      · exact ⟨[], (id, c), rest, rfl, by rw [hstep, h1], by simp, h2⟩
      · refine ⟨(id, c) :: l₁, e, l₂, by rw [heq]; rfl, by rw [hstep, hres], ?_, hl₂⟩
        intro e' he'
        rcases List.mem_cons.mp he' with h | h
        · rw [h]
          exact hgt
        · exact hl₁ e' h

/-- Claim C3: `find_top_candidate` multiplies every stored score exactly
once by `1 - link_density`, returns `none` exactly on the empty map (in
which case the caller substitutes the document root with score 0), and
otherwise returns the entry with the strictly greatest adjusted score,
the first one in (lexicographic) iteration order winning ties: all
earlier entries are strictly below it, all later ones at most equal. -/
theorem c3_theorem (candidates : AMap Candidate)
    (hsorted : candidates.Pairwise (fun a b => strLt (pathStr a.1) (pathStr b.1) = true)) :
    ((find_top_candidate candidates).1 =
      candidates.map (fun e => (e.1, adjustCandidate e.2))) ∧
    ((find_top_candidate candidates).2 = none ↔ candidates = []) ∧
    (∀ id c, (find_top_candidate candidates).2 = some (id, c) →
      ∃ l₁ e l₂, candidates = l₁ ++ e :: l₂ ∧ id = e.1 ∧ c = adjustCandidate e.2 ∧
        (∀ e' ∈ l₁, (adjustCandidate e'.2).score < c.score ∧
          strLt (pathStr e'.1) (pathStr e.1) = true) ∧
        (∀ e' ∈ l₂, (adjustCandidate e'.2).score ≤ c.score)) ∧
    (∀ root : DNode, candidates = [] →
      extractSel (find_top_candidate candidates).2 root = ([], ⟨root, 0⟩)) := by
  refine ⟨findTopLoop_fst candidates none, ?_, ?_, ?_⟩
  · rw [show (find_top_candidate candidates).2 = (findTopLoop candidates none).2 from rfl,
      findTopLoop_none_iff]
    simp
  · intro id c h
    rcases hc : candidates with _ | ⟨hd, rest⟩
    · rw [hc] at h
      simp [find_top_candidate, findTopLoop] at h
    · rw [← hc]
      have hne : candidates ≠ [] := by rw [hc]; simp
      obtain ⟨l₁, e, l₂, heq, hres, hlt, hle⟩ := ftl_none candidates hne
      rw [show (find_top_candidate candidates).2 = (findTopLoop candidates none).2 from
        rfl, hres] at h
      have hid : id = e.1 ∧ c = adjustCandidate e.2 := by
        have := Option.some_inj.mp h
        exact ⟨(congrArg Prod.fst this).symm, (congrArg Prod.snd this).symm⟩
      obtain ⟨hid1, hid2⟩ := hid
      refine ⟨l₁, e, l₂, heq, hid1, hid2, ?_, ?_⟩
      · intro e' he'
        have hpair := hsorted
        rw [heq, List.pairwise_append] at hpair
        refine ⟨by rw [hid2]; exact hlt e' he', ?_⟩
        exact hpair.2.2 e' he' e (by simp)
      · intro e' he'
        rw [hid2]
        exact hle e' he'
  · intro root hemp
    subst hemp
    rfl

/-- Two candidate entries in ascending path order, for the C3 witness. -/
def wEntries : AMap Candidate := [([0], ⟨divNode, 6⟩), ([0, 0], ⟨pNode, 4⟩)]

/-- Witness for C3 at a concrete two-entry candidate map in ascending
path-string order, and at the empty map for the root fallback. -/
theorem c3_witness :
    List.Pairwise (fun a b => strLt (pathStr a.1) (pathStr b.1) = true) wEntries ∧
    ((find_top_candidate wEntries).2 = none ↔ wEntries = []) ∧
    (extractSel (find_top_candidate ([] : AMap Candidate)).2 rootNode =
      ([], ⟨rootNode, 0⟩)) := by
  have hsorted : List.Pairwise (fun a b => strLt (pathStr a.1) (pathStr b.1) = true)
      wEntries := by
    simp only [wEntries, List.pairwise_cons]
    refine ⟨?_, ?_, ?_⟩ <;> simp +decide [pathStr, strLt, strLt.go]
  refine ⟨hsorted, (c3_theorem wEntries hsorted).2.1, ?_⟩
  exact (c3_theorem [] (by simp)).2.2.2 rootNode rfl


/-- Claim C4: `is_useless` holds exactly when at least one of the
claim's conditions does, with `weight = class_weight`, `score` the
candidate score at the path (0 when absent), `li_count` the `li` count
minus 100, `text_nodes_len` the direct-text-child count,
`para_count = text_nodes_len + p_count`, and `content_length` the total
trimmed text length (`0.2` is the exact `1/5`, and
`floor(para_count / 3)` the `Nat` floor division). -/
theorem c4_theorem (opts : ScorerOptions) (id : PathKey) (node : DNode)
    (candidates : AMap Candidate) :
    is_useless opts id node candidates = true ↔
      (let tag_name := (get_tag_name node).getD ""
       let weight := get_class_weight opts node
       let score := ((lookupA candidates id).map Candidate.score).getD 0
       let text_nodes_len := text_children_count node
       let p_count := (find_node "p" node).length
       let img_count := (find_node "img" node).length
       let li_count : ℤ := ((find_node "li" node).length : ℤ) - 100
       let input_count := (find_node "input" node).length
       let embed_count := (find_node "embed" node).length
       let link_density := get_link_density node
       let content_length := text_len node
       let para_count := text_nodes_len + p_count
       weight + score < 0 ∨
       img_count > para_count + text_nodes_len ∨
       (li_count > (para_count : ℤ) ∧ tag_name ≠ "ul" ∧ tag_name ≠ "ol") ∨
       input_count > para_count / 3 ∨
       (content_length < 25 ∧ (img_count = 0 ∨ img_count > 2)) ∨
       (weight < 25 ∧ link_density > (1 : ℚ) / 5) ∨
       (embed_count = 1 ∧ content_length < 35) ∨
       embed_count > 1) := by
  simp only [is_useless]
  split_ifs <;> simp_all <;> tauto

/-- A `p` element whose only child is a comment. -/
def pComment : DNode := .mk (.element "p" []) [.mk .comment []]

mutual

/-- The empty-node predicate as claim C7 words it (a second definition
following the claim, for comparison with `is_empty` from the source):
every child must be whitespace-only text or an empty
`li|dt|dd|p|div` element — any other kind of child, such as a comment,
makes the node non-empty. -/
def isEmptySpecC7 (node : DNode) : Bool :=
  match node with
  | .mk data cs =>
    isEmptySpecC7Children cs &&
      ((get_tag_name (.mk data cs)).getD "" ∈
        (["li", "dt", "dd", "p", "div", "canvas"] : List String))
termination_by structural node

/-- Child loop of `isEmptySpecC7`. -/
def isEmptySpecC7Children (l : List DNode) : Bool :=
  match l with
  | [] => true
  | c :: rest =>
    (match c with
     | .mk (.text s) _ => (trimStr s).data.length = 0
     | .mk (.element name _) _ =>
       lowerStr name ∈ (["li", "dt", "dd", "p", "div"] : List String) && isEmptySpecC7 c
     | _ => false) && isEmptySpecC7Children rest
termination_by structural l

end

/-- Counterexample to C7 as stated: a `p` whose only child is a comment
is empty for the source (`is_empty` ignores non-text, non-element
children) but not under the claim's reading. -/
theorem c7_counterexample :
    is_empty pComment = true ∧ isEmptySpecC7 pComment = false := by decide

theorem isEmptyChildren_iff (l : List DNode) :
    isEmptyChildren l = true ↔
      ∀ c ∈ l,
        (∃ s cs, c = DNode.mk (.text s) cs ∧ (trimStr s).data.length = 0) ∨
        (∃ name attrs cs, c = DNode.mk (.element name attrs) cs ∧
          lowerStr name ∈ (["li", "dt", "dd", "p", "div"] : List String) ∧
          is_empty c = true) ∨
        ((∀ s cs, c ≠ DNode.mk (.text s) cs) ∧
          (∀ name attrs cs, c ≠ DNode.mk (.element name attrs) cs)) := by
  induction l with
  | nil => simp [isEmptyChildren]
  | cons c rest ih =>
    cases c with
    | mk data cs' =>
      cases data with
      | document => simp [isEmptyChildren, ih]
      | doctype => simp [isEmptyChildren, ih]
      | comment => simp [isEmptyChildren, ih]
      | procInst => simp [isEmptyChildren, ih]
      | text s => simp [isEmptyChildren, ih]
      | element name attrs => simp [isEmptyChildren, ih, and_assoc]

/-- Claim C7 (amended): `is_empty` holds iff the node's own tag is in
`li|dt|dd|p|div|canvas` and every child is whitespace-only text, an
empty element with tag in `li|dt|dd|p|div`, or a child that is neither
a text node nor an element (such as a comment) — those are ignored. -/
theorem c7_theorem (node : DNode) :
    is_empty node = true ↔
      ((get_tag_name node).getD "" ∈
          (["li", "dt", "dd", "p", "div", "canvas"] : List String) ∧
        ∀ c ∈ node.children,
          (∃ s cs, c = DNode.mk (.text s) cs ∧ (trimStr s).data.length = 0) ∨
          (∃ name attrs cs, c = DNode.mk (.element name attrs) cs ∧
            lowerStr name ∈ (["li", "dt", "dd", "p", "div"] : List String) ∧
            is_empty c = true) ∨
          ((∀ s cs, c ≠ DNode.mk (.text s) cs) ∧
            (∀ name attrs cs, c ≠ DNode.mk (.element name attrs) cs))) := by
  cases node with
  | mk data cs =>
    rw [is_empty]
    rw [Bool.and_eq_true, isEmptyChildren_iff]
    constructor
    · rintro ⟨h1, h2⟩
      exact ⟨by simpa using h2, by simpa [DNode.children] using h1⟩
    · rintro ⟨h1, h2⟩
      exact ⟨by simpa [DNode.children] using h2, by simpa using h1⟩


/-- The name test used for counting attributes. -/
def attrNameIs (n : String) : (String × String) → Bool := fun a => a.1 = n

mutual

/-- Every element in the subtree carries at most one attribute of each
of the names `id`, `class`, `style` (the hypothesis under which the
attribute scrub is complete). -/
def attrNamesUnique (node : DNode) : Bool :=
  match node with
  | .mk data cs =>
    (match data with
     | .element _ attrs =>
       decide (attrs.countP (attrNameIs "id") ≤ 1) &&
         decide (attrs.countP (attrNameIs "class") ≤ 1) &&
         decide (attrs.countP (attrNameIs "style") ≤ 1)
     | _ => true) && attrNamesUniqueList cs
termination_by structural node

/-- List version of `attrNamesUnique`. -/
def attrNamesUniqueList (l : List DNode) : Bool :=
  match l with
  | [] => true
  | c :: rest => attrNamesUnique c && attrNamesUniqueList rest
termination_by structural l

end

mutual

/-- No element in the subtree carries an `id`, `class`, or `style`
attribute. -/
def attrsScrubbed (node : DNode) : Bool :=
  match node with
  | .mk data cs =>
    (match data with
     | .element _ attrs =>
       attrs.all fun a => !(attrNameIs "id" a || attrNameIs "class" a ||
         attrNameIs "style" a)
     | _ => true) && attrsScrubbedList cs
termination_by structural node

/-- List version of `attrsScrubbed`. -/
def attrsScrubbedList (l : List DNode) : Bool :=
  match l with
  | [] => true
  | c :: rest => attrsScrubbed c && attrsScrubbedList rest
termination_by structural l

end

theorem countP_clean_attr_self (n : String) (attrs : List (String × String))
    (h : attrs.countP (attrNameIs n) ≤ 1) :
    (clean_attr n attrs).countP (attrNameIs n) = 0 := by
  induction attrs with
  | nil => simp [clean_attr]
  | cons a rest ih =>
    by_cases h1 : a.1 = n
    · rw [clean_attr, if_pos h1]
      have hp : attrNameIs n a = true := by simp [attrNameIs, h1]
      rw [List.countP_cons, hp] at h
      simp at h
      simpa using h
    · have hp : attrNameIs n a = false := by simp [attrNameIs, h1]
      rw [clean_attr, if_neg h1, List.countP_cons, hp]
      have hr : rest.countP (attrNameIs n) ≤ 1 := by
        rw [List.countP_cons, hp] at h
        simpa using h
      simp [ih hr]

theorem countP_clean_attr_ne (m n : String) (hmn : ¬ m = n)
    (attrs : List (String × String)) :
    (clean_attr n attrs).countP (attrNameIs m) = attrs.countP (attrNameIs m) := by
  induction attrs with
  | nil => simp [clean_attr]
  | cons a rest ih =>
    by_cases h1 : a.1 = n
    · have hp : attrNameIs m a = false := by
        simp only [attrNameIs, h1, decide_eq_false_iff_not]
        exact fun e => hmn e.symm
      rw [clean_attr, if_pos h1, List.countP_cons, hp]
      simp
    · rw [clean_attr, if_neg h1, List.countP_cons, List.countP_cons, ih]

theorem countP_setAttrList (m n v : String) (attrs : List (String × String)) :
    (setAttrList n v attrs).countP (attrNameIs m) = attrs.countP (attrNameIs m) := by
  induction attrs with
  | nil => simp [setAttrList]
  | cons a rest ih =>
    by_cases h1 : a.1 = n
    · rw [setAttrList, if_pos h1, List.countP_cons, List.countP_cons]
      simp [attrNameIs]
    · rw [setAttrList, if_neg h1, List.countP_cons, List.countP_cons, ih]

theorem scrubAttrs_scrubbed (attrs : List (String × String))
    (h1 : attrs.countP (attrNameIs "id") ≤ 1)
    (h2 : attrs.countP (attrNameIs "class") ≤ 1)
    (h3 : attrs.countP (attrNameIs "style") ≤ 1) :
    ((scrubAttrs attrs).all fun a => !(attrNameIs "id" a || attrNameIs "class" a ||
      attrNameIs "style" a)) = true := by
  have hid : (scrubAttrs attrs).countP (attrNameIs "id") = 0 := by
    unfold scrubAttrs
    rw [countP_clean_attr_ne "id" "style" (by decide),
      countP_clean_attr_ne "id" "class" (by decide),
      countP_clean_attr_self "id" attrs h1]
  have hcl : (scrubAttrs attrs).countP (attrNameIs "class") = 0 := by
    unfold scrubAttrs
    rw [countP_clean_attr_ne "class" "style" (by decide),
      countP_clean_attr_self "class" _ (by
        rw [countP_clean_attr_ne "class" "id" (by decide)]; exact h2)]
  have hst : (scrubAttrs attrs).countP (attrNameIs "style") = 0 := by
    unfold scrubAttrs
    rw [countP_clean_attr_self "style" _ (by
      rw [countP_clean_attr_ne "style" "class" (by decide),
        countP_clean_attr_ne "style" "id" (by decide)]
      exact h3)]
  rw [List.countP_eq_zero] at hid hcl hst
  rw [List.all_eq_true]
  intro a ha
  simp only [Bool.not_eq_true', Bool.or_eq_false_iff]
  exact ⟨⟨Bool.eq_false_iff.mpr (fun he => hid a ha he),
    Bool.eq_false_iff.mpr (fun he => hcl a ha he)⟩,
    Bool.eq_false_iff.mpr (fun he => hst a ha he)⟩


theorem fix_img_path_attrs (join : String → Option String) (name : String)
    (attrs : List (String × String)) (cs : List DNode) :
    ∃ a', (fix_img_path join (.mk (.element name attrs) cs)).1 =
        DNode.mk (.element name a') cs ∧
      ∀ m, a'.countP (attrNameIs m) = attrs.countP (attrNameIs m) := by
  unfold fix_img_path
  cases h : get_attr "src" (DNode.mk (.element name attrs) cs) with
  | none => exact ⟨attrs, rfl, fun m => rfl⟩
  | some s =>
    by_cases hcond : (!startsWithStr s "//" && !startsWithStr s "http://" &&
        !startsWithStr s "https://") = true
    · cases hj : join s with
      | some u =>
        refine ⟨setAttrList "src" u attrs, ?_,
          fun m => countP_setAttrList m "src" u attrs⟩
        simp [hcond, hj, set_attr]
      | none =>
        refine ⟨attrs, ?_, fun m => rfl⟩
        simp [hcond, hj]
    · refine ⟨attrs, ?_, fun m => rfl⟩
      simp [hcond]

theorem fix_anchor_path_attrs (join : String → Option String) (name : String)
    (attrs : List (String × String)) (cs : List DNode) :
    ∃ a', (fix_anchor_path join (.mk (.element name attrs) cs)).1 =
        DNode.mk (.element name a') cs ∧
      ∀ m, a'.countP (attrNameIs m) = attrs.countP (attrNameIs m) := by
  unfold fix_anchor_path
  cases h : get_attr "href" (DNode.mk (.element name attrs) cs) with
  | none => exact ⟨attrs, rfl, fun m => rfl⟩
  | some s =>
    by_cases hcond : (!startsWithStr s "//" && !startsWithStr s "http://" &&
        !startsWithStr s "https://") = true
    · cases hj : join s with
      | some u =>
        refine ⟨setAttrList "href" u attrs, ?_,
          fun m => countP_setAttrList m "href" u attrs⟩
        simp [hcond, hj, set_attr]
      | none =>
        refine ⟨attrs, ?_, fun m => rfl⟩
        simp [hcond, hj]
    · refine ⟨attrs, ?_, fun m => rfl⟩
      simp [hcond]

theorem cleanTagStep_attrs (opts : ScorerOptions) (join : String → Option String)
    (cands : AMap Candidate) (id : PathKey) (tag name : String)
    (attrs : List (String × String)) (cs : List DNode) :
    ∃ a', (cleanTagStep opts join cands id tag (.mk (.element name attrs) cs)).1 =
        DNode.mk (.element name a') cs ∧
      ∀ m, a'.countP (attrNameIs m) = attrs.countP (attrNameIs m) := by
  unfold cleanTagStep
  split_ifs with h1 h2 h3 h4
  · exact ⟨attrs, rfl, fun m => rfl⟩
  · exact ⟨attrs, rfl, fun m => rfl⟩
  · obtain ⟨a', ha, hc⟩ := fix_img_path_attrs join name attrs cs
    exact ⟨a', ha, hc⟩
  · obtain ⟨a', ha, hc⟩ := fix_anchor_path_attrs join name attrs cs
    exact ⟨a', ha, hc⟩
  · exact ⟨attrs, rfl, fun m => rfl⟩

mutual

/-- After `clean`, no element in the returned subtree carries an `id`,
`class`, or `style` attribute, provided each element carried at most one
attribute of each name. -/
theorem clean_scrubbed :
    ∀ (opts : ScorerOptions) (join : String → Option String)
      (cands : AMap Candidate) (id : PathKey) (node : DNode),
      attrNamesUnique node = true →
      attrsScrubbed (clean opts join cands id node).1 = true
  | opts, join, cands, id, .mk data cs, h => by
    cases data with
    | document =>
      simp only [attrNamesUnique, Bool.and_eq_true] at h
      have hchildren := cleanChildren_scrubbed opts join cands id 0 cs h.2
      rw [clean.eq_def]; simp [attrsScrubbed, hchildren]
    | doctype =>
      simp only [attrNamesUnique, Bool.and_eq_true] at h
      have hchildren := cleanChildren_scrubbed opts join cands id 0 cs h.2
      rw [clean.eq_def]; simp [attrsScrubbed, hchildren]
    | text s =>
      simp only [attrNamesUnique, Bool.and_eq_true] at h
      have hchildren := cleanChildren_scrubbed opts join cands id 0 cs h.2
      rw [clean.eq_def]; simp [attrsScrubbed, hchildren]
    | comment =>
      simp only [attrNamesUnique, Bool.and_eq_true] at h
      have hchildren := cleanChildren_scrubbed opts join cands id 0 cs h.2
      rw [clean.eq_def]; simp [attrsScrubbed, hchildren]
    | procInst =>
      simp only [attrNamesUnique, Bool.and_eq_true] at h
      have hchildren := cleanChildren_scrubbed opts join cands id 0 cs h.2
      rw [clean.eq_def]; simp [attrsScrubbed, hchildren]
    | element name attrs =>
      simp only [attrNamesUnique, Bool.and_eq_true] at h
      obtain ⟨hdata, hcs⟩ := h
      have hchildren := cleanChildren_scrubbed opts join cands id 0 cs hcs
      simp only [Bool.and_eq_true, decide_eq_true_eq] at hdata
      obtain ⟨a', ha, hc⟩ := cleanTagStep_attrs opts join cands id (lowerStr name)
        name attrs cs
      have hs := scrubAttrs_scrubbed a' (by rw [hc]; exact hdata.1.1)
        (by rw [hc]; exact hdata.1.2) (by rw [hc]; exact hdata.2)
      rw [clean.eq_def]
      simp [attrsScrubbed, hchildren, ha]
      simpa [attrNameIs] using hs

/-- List version of `clean_scrubbed`. -/
theorem cleanChildren_scrubbed :
    ∀ (opts : ScorerOptions) (join : String → Option String)
      (cands : AMap Candidate) (id : PathKey) (i : Nat) (l : List DNode),
      attrNamesUniqueList l = true →
      attrsScrubbedList (cleanChildren opts join cands id i l) = true
  | opts, join, cands, id, i, [], h => rfl
  | opts, join, cands, id, i, c :: rest, h => by
    rw [attrNamesUniqueList, Bool.and_eq_true] at h
    obtain ⟨hc, hrest⟩ := h
    have h1 := clean_scrubbed opts join cands (id ++ [i]) c hc
    have h2 := cleanChildren_scrubbed opts join cands id (i + 1) rest hrest
    rw [cleanChildren.eq_def]
    by_cases hdrop : (clean opts join cands (id ++ [i]) c).2 = true
    · simpa [hdrop] using h2
    · have h3 : attrsScrubbedList ((clean opts join cands (id ++ [i]) c).1 ::
          cleanChildren opts join cands id (i + 1) rest) = true := by
        rw [attrsScrubbedList, Bool.and_eq_true]
        exact ⟨h1, h2⟩
      simpa [hdrop] using h3

end

/-- Claim C5 (amended): after `Scorer::clean` runs on the chosen
subtree, no element remaining in that subtree carries an `id`, `class`,
or `style` attribute — provided every element carries at most one
attribute of each of those names. With duplicate attributes of the same
name the property fails, because `clean_attr` removes only the first
matching attribute. -/
theorem c5_theorem (opts : ScorerOptions) (join : String → Option String)
    (cands : AMap Candidate) (id : PathKey) (node : DNode)
    (h : attrNamesUnique node = true) :
    attrsScrubbed (clean opts join cands id node).1 = true :=
  clean_scrubbed opts join cands id node h

/-- A body whose `p` child carries two `id` attributes. -/
def dupIdNode : DNode :=
  .mk (.element "body" [])
    [.mk (.element "p" [("id", "a"), ("id", "b")])
      [.mk (.text "hello world, some text") []]]

/-- Counterexample to C5 as stated: cleaning a subtree whose `p` element
carries two `id` attributes leaves the second one in place —
`clean_attr` removes only the first match. -/
theorem c5_counterexample :
    attrsScrubbed (clean optsEq (fun _ => none) [] [] dupIdNode).1 = false ∧
    (clean optsEq (fun _ => none) [] [] dupIdNode).1 =
      DNode.mk (.element "body" [])
        [.mk (.element "p" [("id", "b")])
          [.mk (.text "hello world, some text") []]] := by
  constructor
  · decide
  · rfl

/-- A body with a singly-attributed `p` child, for the C5 witness. -/
def singleIdNode : DNode :=
  .mk (.element "body" [("id", "x")])
    [.mk (.element "p" [("id", "a"), ("class", "c"), ("style", "s")])
      [.mk (.text "hello world, some text") []]]

/-- Witness for C5 at a concrete subtree with at most one attribute of
each name per element. -/
theorem c5_witness :
    attrNamesUnique singleIdNode = true ∧
    attrsScrubbed (clean optsEq (fun _ => none) [] [] singleIdNode).1 = true :=
  ⟨by decide, c5_theorem optsEq (fun _ => none) [] [] singleIdNode (by decide)⟩


theorem attr_clean_attr_ne (n m : String) (h : ¬ m = n)
    (attrs : List (String × String)) :
    attr n (clean_attr m attrs) = attr n attrs := by
  induction attrs with
  | nil => simp [clean_attr]
  | cons a rest ih =>
    by_cases h1 : a.1 = m
    · have h2 : ¬ a.1 = n := by rw [h1]; exact h
      rw [clean_attr, if_pos h1, attr, if_neg h2]
    · rw [clean_attr, if_neg h1]
      by_cases h2 : a.1 = n
      · rw [attr, if_pos h2, attr, if_pos h2]
      · rw [attr, if_neg h2, attr, if_neg h2, ih]

theorem attr_scrubAttrs (n : String) (hn1 : ¬ "id" = n) (hn2 : ¬ "class" = n)
    (hn3 : ¬ "style" = n) (attrs : List (String × String)) :
    attr n (scrubAttrs attrs) = attr n attrs := by
  unfold scrubAttrs
  rw [attr_clean_attr_ne n "style" hn3, attr_clean_attr_ne n "class" hn2,
    attr_clean_attr_ne n "id" hn1]

theorem is_empty_not_mem (name : String) (a : List (String × String))
    (cs : List DNode)
    (h : lowerStr name ∉ (["li", "dt", "dd", "p", "div", "canvas"] : List String)) :
    is_empty (.mk (.element name a) cs) = false := by
  rw [is_empty]
  simp only [get_tag_name, DNode.data]
  simp only [List.mem_cons, List.mem_singleton, not_or] at h
  simp [h]

theorem fix_img_path_snd (join : String → Option String) (node : DNode) :
    (fix_img_path join node).2 = (get_attr "src" node).isSome := by
  unfold fix_img_path
  cases h : get_attr "src" node with
  | none => rfl
  | some s =>
    by_cases hcond : (!startsWithStr s "//" && !startsWithStr s "http://" &&
        !startsWithStr s "https://") = true
    · cases hj : join s with
      | some u => simp [hcond, hj]
      | none => simp [hcond, hj]
    · simp [hcond]

theorem fix_anchor_path_snd (join : String → Option String) (node : DNode) :
    (fix_anchor_path join node).2 = (get_attr "href" node).isSome := by
  unfold fix_anchor_path
  cases h : get_attr "href" node with
  | none => rfl
  | some s =>
    by_cases hcond : (!startsWithStr s "//" && !startsWithStr s "http://" &&
        !startsWithStr s "https://") = true
    · cases hj : join s with
      | some u => simp [hcond, hj]
      | none => simp [hcond, hj]
    · simp [hcond]

theorem fix_img_path_fail (join : String → Option String) (node : DNode)
    (s : String) (hs : get_attr "src" node = some s) (hj : join s = none) :
    (fix_img_path join node).1 = node := by
  unfold fix_img_path
  rw [hs]
  by_cases hcond : (!startsWithStr s "//" && !startsWithStr s "http://" &&
      !startsWithStr s "https://") = true
  · simp [hcond, hj]
  · simp [hcond]

theorem fix_anchor_path_fail (join : String → Option String) (node : DNode)
    (s : String) (hs : get_attr "href" node = some s) (hj : join s = none) :
    (fix_anchor_path join node).1 = node := by
  unfold fix_anchor_path
  rw [hs]
  by_cases hcond : (!startsWithStr s "//" && !startsWithStr s "http://" &&
      !startsWithStr s "https://") = true
  · simp [hcond, hj]
  · simp [hcond]

theorem cleanTagStep_img (opts : ScorerOptions) (join : String → Option String)
    (cands : AMap Candidate) (id : PathKey) (node : DNode) :
    cleanTagStep opts join cands id "img" node =
      ((fix_img_path join node).1, !(fix_img_path join node).2) := by
  simp +decide [cleanTagStep]

theorem cleanTagStep_anchor (opts : ScorerOptions) (join : String → Option String)
    (cands : AMap Candidate) (id : PathKey) (node : DNode) :
    cleanTagStep opts join cands id "a" node =
      ((fix_anchor_path join node).1, !(fix_anchor_path join node).2) := by
  simp +decide [cleanTagStep]


/-- Claim C6: during cleaning an `img` element's removable verdict is
true exactly when it has no `src` attribute, and an `a` element's
exactly when it has no `href`; when the attribute is present but the
URL join fails, the attribute value is left unchanged and the node is
kept. -/
theorem c6_theorem :
    (∀ (opts : ScorerOptions) (join : String → Option String)
      (cands : AMap Candidate) (id : PathKey) (name : String)
      (attrs : List (String × String)) (cs : List DNode),
      lowerStr name = "img" →
      (((clean opts join cands id (.mk (.element name attrs) cs)).2 = true) ↔
        attr "src" attrs = none) ∧
      (∀ s, attr "src" attrs = some s → join s = none →
        get_attr "src" (clean opts join cands id (.mk (.element name attrs) cs)).1 =
          some s ∧
        (clean opts join cands id (.mk (.element name attrs) cs)).2 = false)) ∧
    (∀ (opts : ScorerOptions) (join : String → Option String)
      (cands : AMap Candidate) (id : PathKey) (name : String)
      (attrs : List (String × String)) (cs : List DNode),
      lowerStr name = "a" →
      (((clean opts join cands id (.mk (.element name attrs) cs)).2 = true) ↔
        attr "href" attrs = none) ∧
      (∀ s, attr "href" attrs = some s → join s = none →
        get_attr "href" (clean opts join cands id (.mk (.element name attrs) cs)).1 =
          some s ∧
        (clean opts join cands id (.mk (.element name attrs) cs)).2 = false)) := by
  constructor
  · intro opts join cands id name attrs cs htag
    obtain ⟨a', ha', hc'⟩ := fix_img_path_attrs join name attrs cs
    have hmain : clean opts join cands id (.mk (.element name attrs) cs) =
        (DNode.mk (.element name (scrubAttrs a'))
          (cleanChildren opts join cands id 0 cs),
         (!(fix_img_path join (.mk (.element name attrs) cs)).2) ||
           is_empty (DNode.mk (.element name (scrubAttrs a'))
             (cleanChildren opts join cands id 0 cs))) := by
      rw [clean.eq_def]
      simp [htag, cleanTagStep_img, ha']
    have hie : is_empty (DNode.mk (.element name (scrubAttrs a'))
        (cleanChildren opts join cands id 0 cs)) = false :=
      is_empty_not_mem name _ _ (by rw [htag]; decide)
    constructor
    · rw [hmain]
      simp only [hie, Bool.or_false, fix_img_path_snd]
      cases hatt : attr "src" attrs <;> simp [get_attr, DNode.data, hatt]
    · intro s hs hj
      have hga : get_attr "src" (DNode.mk (.element name attrs) cs) = some s := by
        simp [get_attr, DNode.data, hs]
      have hfix1 := fix_img_path_fail join (.mk (.element name attrs) cs) s hga hj
      have haeq : a' = attrs := by
        have h2 := ha'.symm.trans hfix1
        simpa using h2
      subst haeq
      constructor
      · rw [hmain]
        simp only [get_attr, DNode.data]
        rw [attr_scrubAttrs "src" (by decide) (by decide) (by decide), hs]
      · rw [hmain]
        simp [hie, fix_img_path_snd, hga]
  · intro opts join cands id name attrs cs htag
    obtain ⟨a', ha', hc'⟩ := fix_anchor_path_attrs join name attrs cs
    have hmain : clean opts join cands id (.mk (.element name attrs) cs) =
        (DNode.mk (.element name (scrubAttrs a'))
          (cleanChildren opts join cands id 0 cs),
         (!(fix_anchor_path join (.mk (.element name attrs) cs)).2) ||
           is_empty (DNode.mk (.element name (scrubAttrs a'))
             (cleanChildren opts join cands id 0 cs))) := by
      rw [clean.eq_def]
      simp [htag, cleanTagStep_anchor, ha']
    have hie : is_empty (DNode.mk (.element name (scrubAttrs a'))
        (cleanChildren opts join cands id 0 cs)) = false :=
      is_empty_not_mem name _ _ (by rw [htag]; decide)
    constructor
    · rw [hmain]
      simp only [hie, Bool.or_false, fix_anchor_path_snd]
      cases hatt : attr "href" attrs <;> simp [get_attr, DNode.data, hatt]
    · intro s hs hj
      have hga : get_attr "href" (DNode.mk (.element name attrs) cs) = some s := by
        simp [get_attr, DNode.data, hs]
      have hfix1 := fix_anchor_path_fail join (.mk (.element name attrs) cs) s hga hj
      have haeq : a' = attrs := by
        have h2 := ha'.symm.trans hfix1
        simpa using h2
      subst haeq
      constructor
      · rw [hmain]
        simp only [get_attr, DNode.data]
        rw [attr_scrubAttrs "href" (by decide) (by decide) (by decide), hs]
      · rw [hmain]
        simp [hie, fix_anchor_path_snd, hga]

/-- Witness for C6: a concrete `img` with a `src` the page URL cannot
absorb (`join` failing) is kept with the value unchanged; one without
`src` gets the removable verdict; and the same for `a`/`href`. -/
theorem c6_witness :
    ((clean optsEq (fun _ => none) [] [] (.mk (.element "img" []) [])).2 = true) ∧
    (get_attr "src" (clean optsEq (fun _ => none) [] []
        (.mk (.element "img" [("src", "x.png")]) [])).1 = some "x.png") ∧
    ((clean optsEq (fun _ => none) [] []
        (.mk (.element "img" [("src", "x.png")]) [])).2 = false) ∧
    ((clean optsEq (fun _ => none) [] [] (.mk (.element "a" []) [])).2 = true) ∧
    (get_attr "href" (clean optsEq (fun _ => none) [] []
        (.mk (.element "a" [("href", "y.html")]) [])).1 = some "y.html") ∧
    ((clean optsEq (fun _ => none) [] []
        (.mk (.element "a" [("href", "y.html")]) [])).2 = false) := by
  have himg := c6_theorem.1 optsEq (fun _ => none) [] [] "img" [] [] (by decide)
  have himg2 := c6_theorem.1 optsEq (fun _ => none) [] [] "img" [("src", "x.png")] []
    (by decide)
  have ha := c6_theorem.2 optsEq (fun _ => none) [] [] "a" [] [] (by decide)
  have ha2 := c6_theorem.2 optsEq (fun _ => none) [] [] "a" [("href", "y.html")] []
    (by decide)
  obtain ⟨h1, -⟩ := himg
  obtain ⟨-, h2⟩ := himg2
  obtain ⟨h3, -⟩ := ha
  obtain ⟨-, h4⟩ := ha2
  obtain ⟨h2a, h2b⟩ := h2 "x.png" (by decide) rfl
  obtain ⟨h4a, h4b⟩ := h4 "y.html" (by decide) rfl
  exact ⟨h1.mpr (by decide), h2a, h2b, h3.mpr (by decide), h4a, h4b⟩


/-- Claim C9: `extract_content` returns the selected top-candidate node
itself after cleaning — `Scorer::clean`'s removable verdict for the
root of the cleaned subtree is discarded, so even when the verdict is
true the chosen node is the output — and when the candidate map is
empty the selection falls back to the document root with score 0. -/
theorem c9_theorem (opts : ScorerOptions) (join : String → Option String)
    (dom : DNode)
    (h : (clean opts join
        (find_top_candidate
          (find_candidates opts [] (preprocess opts dom "").1 ⟨[], []⟩).candidates).1
        (extractSel
          (find_top_candidate
            (find_candidates opts [] (preprocess opts dom "").1
              ⟨[], []⟩).candidates).2
          (preprocess opts dom "").1).1
        (extractSel
          (find_top_candidate
            (find_candidates opts [] (preprocess opts dom "").1
              ⟨[], []⟩).candidates).2
          (preprocess opts dom "").1).2.node).2 = true) :
    ((extract_content opts join dom).1 =
      (clean opts join
        (find_top_candidate
          (find_candidates opts [] (preprocess opts dom "").1 ⟨[], []⟩).candidates).1
        (extractSel
          (find_top_candidate
            (find_candidates opts [] (preprocess opts dom "").1
              ⟨[], []⟩).candidates).2
          (preprocess opts dom "").1).1
        (extractSel
          (find_top_candidate
            (find_candidates opts [] (preprocess opts dom "").1
              ⟨[], []⟩).candidates).2
          (preprocess opts dom "").1).2.node).1) ∧
    ((find_top_candidate
        (find_candidates opts [] (preprocess opts dom "").1 ⟨[], []⟩).candidates).2 =
        none →
      extractSel
        (find_top_candidate
          (find_candidates opts [] (preprocess opts dom "").1 ⟨[], []⟩).candidates).2
        (preprocess opts dom "").1 = ([], ⟨(preprocess opts dom "").1, 0⟩)) := by
  refine ⟨rfl, fun hn => ?_⟩
  rw [hn]
  rfl

/-- Witness for C9: on a concrete document whose top candidate is a
`div` that `clean` flags removable (its verdict is true because the
cleaned `div` is short on text), the output of `extract_content` is
still that cleaned `div`. -/
theorem c9_witness :
    ((clean optsEq (fun _ => none)
      (find_top_candidate
        (find_candidates optsEq [] (preprocess optsEq rootNode "").1
          ⟨[], []⟩).candidates).1
      (extractSel
        (find_top_candidate
          (find_candidates optsEq [] (preprocess optsEq rootNode "").1
            ⟨[], []⟩).candidates).2
        (preprocess optsEq rootNode "").1).1
      (extractSel
        (find_top_candidate
          (find_candidates optsEq [] (preprocess optsEq rootNode "").1
            ⟨[], []⟩).candidates).2
        (preprocess optsEq rootNode "").1).2.node).2 = true) ∧
    ((extract_content optsEq (fun _ => none) rootNode).1 =
      (clean optsEq (fun _ => none)
        (find_top_candidate
          (find_candidates optsEq [] (preprocess optsEq rootNode "").1
            ⟨[], []⟩).candidates).1
        (extractSel
          (find_top_candidate
            (find_candidates optsEq [] (preprocess optsEq rootNode "").1
              ⟨[], []⟩).candidates).2
          (preprocess optsEq rootNode "").1).1
        (extractSel
          (find_top_candidate
            (find_candidates optsEq [] (preprocess optsEq rootNode "").1
              ⟨[], []⟩).candidates).2
          (preprocess optsEq rootNode "").1).2.node).1) := by
  have h : (clean optsEq (fun _ => none)
      (find_top_candidate
        (find_candidates optsEq [] (preprocess optsEq rootNode "").1
          ⟨[], []⟩).candidates).1
      (extractSel
        (find_top_candidate
          (find_candidates optsEq [] (preprocess optsEq rootNode "").1
            ⟨[], []⟩).candidates).2
        (preprocess optsEq rootNode "").1).1
      (extractSel
        (find_top_candidate
          (find_candidates optsEq [] (preprocess optsEq rootNode "").1
            ⟨[], []⟩).candidates).2
        (preprocess optsEq rootNode "").1).2.node).2 = true := by
    simp +decide [preprocess, preprocessChildren, preprocessUnlikely, find_candidates,
      findCandidatesT, findCandidatesTChildren, propagate, find_or_create_candidate,
      adjusted_content_score, setScore, binsert, lookupA, is_candidate,
      calculate_content_score, init_content_score, get_class_weight, classWeightContrib,
      get_tag_name, attr, text_len, textLenChildren, extract_text, extractTextChildren,
      has_nodes, hasNodesChildren, trimStr, lowerStr, lowerChar, wsChar, strLt, strLt.go,
      pathStr, optsEq, t20, pNode, divNode, rootNode, DNode.data, noRx,
      find_top_candidate, findTopLoop, adjustCandidate, get_link_density, find_node,
      findNodeChildren, extractSel, clean, cleanChildren, cleanTagStep, is_useless,
      text_children_count, is_empty, isEmptyChildren, scrubAttrs, fix_img_path,
      fix_anchor_path, byteLen, charBytes]
  exact ⟨h, (c9_theorem optsEq (fun _ => none) rootNode h).1⟩

end Readability
